import Mathlib

/-!
# snake-cli: a shallow embedding of `src/snake.h`

The class `SnakeGame` of `src/snake.h` is embedded as a record of its data
members; its member functions become functions on that record.

Conventions of the embedding.

* `pair<int,int>` is `Int × Int` (`first` is the row, `second` the column).
  C++ `%` on `int` truncates towards zero, which is `Int.tmod`.  The
  coordinates are kept as unbounded integers: every statement below is about
  cells `0 ≤ row, col < grid_size`, on which `col + 1` and `row + 1` are at
  most `grid_size` and stay in the range of `int`.
* `atomic<int> score` is a 32-bit two's complement integer and `score += 10`
  on an atomic wraps around: the sum is reduced by `wrap_int`.
* `deque<pair<int,int>> snake` is a `List`, front of the deque first: the
  tail of the snake is the first element of the list, the head of the snake
  (`snake.back()`) the last one.
* `mt19937 rng` together with `uniform_int_distribution<int> dist(0, grid_size - 1)`
  is the sequence of the pairs `make_pair(dist(rng), dist(rng))` still to be
  drawn: `rng 0` is the next pair, the generator after one draw is
  `fun i => rng (i + 1)`.
* The loops of the source that need not terminate (the rejection loops of
  `spawn_food` and `spawn_poison`) take a bound on the number of iterations;
  `none` means that the loop is still running after that many iterations.
* `game_play` and `input_handler` are infinite loops; one iteration of each
  is a function (`game_play_step`, `input_handler_step`).  The two loops run
  in two threads and share the atomics `direction` and `is_paused` only; an
  iteration of `game_play` loads each of them once and writes neither, so a
  run of the program is an interleaving of whole iterations of the two loops.
* `high_scores.txt` is the sequence of integers that `while (infile >> s)`
  reads from it, or nothing when the file does not exist; the text of the file
  is not modelled.
-/

namespace SnakeCli

/-- A grid cell: `(row, col)`, the `pair<int,int>` of the source. -/
abbrev Pos := Int × Int

/-- The pairs `make_pair(dist(rng), dist(rng))` the generator will produce, in order. -/
abbrev Rng := Nat → Pos

/-- The data members of `class SnakeGame` (the mutex apart). -/
structure SnakeGame where
  grid_size : Int
  direction : Char
  is_paused : Bool
  score : Int
  food : Pos
  poisonous_food : Pos
  snake : List Pos
  sleep_duration : Int
  rng : Rng

/-- The static member `SnakeGame::getNextHead(current, dir, grid)`. -/
def getNextHead (current : Pos) (dir : Char) (grid : Int) : Pos :=
  if dir = 'r' then
    (current.1, Int.tmod (current.2 + 1) grid)
  else if dir = 'l' then
    (current.1, if current.2 = 0 then grid - 1 else current.2 - 1)
  else if dir = 'd' then
    (Int.tmod (current.1 + 1) grid, current.2)
  else
    (if current.1 = 0 then grid - 1 else current.1 - 1, current.2)

/-- The static member `SnakeGame::is_opposite(a, b)`. -/
def is_opposite (a b : Char) : Bool :=
  if (a = 'r' ∧ b = 'l') ∨ (a = 'l' ∧ b = 'r') then true
  else if (a = 'u' ∧ b = 'd') ∨ (a = 'd' ∧ b = 'u') then true
  else false

/-- The generator after one pair has been drawn from it. -/
def Rng.next (rng : Rng) : Rng := fun i => rng (i + 1)

/-- The `do { pos = make_pair(dist(rng), dist(rng)); } while (pos on snake || pos == forbidden)`
loop shared by `spawn_food` and `spawn_poison`, run for at most `fuel` iterations.
The result is the accepted cell and the generator after the loop. -/
def spawn_loop (snake : List Pos) (forbidden : Pos) : Nat → Rng → Option (Pos × Rng)
  | 0, _ => none
  | fuel + 1, rng =>
    let pos := rng 0
    if pos ∈ snake ∨ pos = forbidden then
      spawn_loop snake forbidden fuel rng.next
    else
      some (pos, rng.next)

/-- The member `SnakeGame::spawn_food()`. -/
def spawn_food (fuel : Nat) (s : SnakeGame) : Option SnakeGame :=
  match spawn_loop s.snake s.poisonous_food fuel s.rng with
  | none => none
  | some (pos, rng) => some { s with food := pos, rng := rng }

/-- The member `SnakeGame::spawn_poison()`. -/
def spawn_poison (fuel : Nat) (s : SnakeGame) : Option SnakeGame :=
  match spawn_loop s.snake s.food fuel s.rng with
  | none => none
  | some (pos, rng) => some { s with poisonous_food := pos, rng := rng }

/-- The constructor `SnakeGame(int size)`: the member initialisers, the first
snake cell, then `spawn_food()` and `spawn_poison()`. -/
def SnakeGame.new (size : Int) (rng : Rng) (fuel : Nat) : Option SnakeGame :=
  let s0 : SnakeGame :=
    { grid_size := size, direction := 'r', is_paused := false, score := 0,
      food := (-1, -1), poisonous_food := (-1, -1), snake := [(0, 0)],
      sleep_duration := 500, rng := rng }
  match spawn_food fuel s0 with
  | none => none
  | some s1 => spawn_poison fuel s1

/-- The `keymap` of `input_handler`. -/
def keymap : List (Char × Char) :=
  [('d', 'r'), ('a', 'l'), ('w', 'u'), ('s', 'd'), ('q', 'q'), ('p', 'p')]

/-- One iteration of the `while (true)` loop of `input_handler` on the key
`input`.  `none` is `exit(0)`. -/
def input_handler_step (s : SnakeGame) (input : Char) : Option SnakeGame :=
  match keymap.lookup input with
  | none => some s
  | some requested =>
    if input = 'p' then
      some { s with is_paused := !s.is_paused }
    else if input = 'q' then
      none
    else
      let cur := s.direction
      if !is_opposite cur requested then
        some { s with direction := requested }
      else
        some s

/-- The loop of `input_handler` on the keys `inputs`, in order; `none` once a
key has ended the process. -/
def input_handler_run (s : SnakeGame) : List Char → Option SnakeGame
  | [] => some s
  | input :: rest =>
    match input_handler_step s input with
    | none => none
    | some s1 => input_handler_run s1 rest

/-- Why `game_play` ended the session. -/
inductive GameOverReason where
  | selfCollision
  | poisonEaten
  deriving DecidableEq, Repr

/-- What one iteration of the `while (true)` loop of `game_play` does. -/
inductive Outcome where
  /-- The pause branch: `continue` without touching the game. -/
  | paused (s : SnakeGame)
  /-- A collision branch: `update_high_scores()` reads `recorded = score.load()`
  in the state `s`, then `exit(0)`. -/
  | gameOver (reason : GameOverReason) (recorded : Int) (s : SnakeGame)
  /-- The food branch or the normal move ran to the end of the iteration. -/
  | moved (s : SnakeGame)
  /-- The food branch is still inside the loop of `spawn_food()`. -/
  | spawnSpins
  /-- The deque is empty: `snake.back()` has no value. -/
  | noHead

/-- The value of a 32-bit two's complement `int` that holds the integer `x`
modulo `2 ^ 32`: what arithmetic on `atomic<int>` stores. -/
def wrap_int (x : Int) : Int :=
  (x + 2147483648) % 4294967296 - 2147483648

/-- The constant `min_sleep` of `game_play`. -/
def min_sleep : Int := 50

/-- One iteration of the `while (true)` loop of `game_play`. -/
def game_play_step (fuel : Nat) (s : SnakeGame) : Outcome :=
  if s.is_paused then
    Outcome.paused s
  else
    match s.snake.getLast? with
    | none => Outcome.noHead
    | some back =>
      let head := getNextHead back s.direction s.grid_size
      if head ∈ s.snake then
        Outcome.gameOver GameOverReason.selfCollision s.score s
      else if head.1 = s.poisonous_food.1 ∧ head.2 = s.poisonous_food.2 then
        Outcome.gameOver GameOverReason.poisonEaten s.score s
      else if head.1 = s.food.1 ∧ head.2 = s.food.2 then
        let s1 : SnakeGame := { s with snake := s.snake ++ [head] }
        match spawn_food fuel s1 with
        | none => Outcome.spawnSpins
        | some s2 =>
          let s3 : SnakeGame := { s2 with score := wrap_int (s2.score + 10) }
          if s3.sleep_duration - 10 ≥ min_sleep then
            Outcome.moved { s3 with sleep_duration := s3.sleep_duration - 10 }
          else
            Outcome.moved s3
      else
        Outcome.moved { s with snake := (s.snake ++ [head]).tail }

/-- The prologue of `game_play`: `if (food.first == -1) spawn_food();`
`if (poisonous_food.first == -1) spawn_poison();`. -/
def game_play_begin (fuel : Nat) (s : SnakeGame) : Option SnakeGame :=
  match (if s.food.1 = -1 then spawn_food fuel s else some s) with
  | none => none
  | some s1 => if s1.poisonous_food.1 = -1 then spawn_poison fuel s1 else some s1

/-- Every pair the generator produces is a cell of the grid: the contract of
`uniform_int_distribution<int> dist(0, grid - 1)`. -/
def RngInGrid (grid : Int) (rng : Rng) : Prop :=
  ∀ i, 0 ≤ (rng i).1 ∧ (rng i).1 < grid ∧ 0 ≤ (rng i).2 ∧ (rng i).2 < grid

/-- The cell `p` lies on the `grid × grid` board. -/
def InGrid (grid : Int) (p : Pos) : Prop :=
  0 ≤ p.1 ∧ p.1 < grid ∧ 0 ≤ p.2 ∧ p.2 < grid

/-- A generator that runs through the cells of the `n × n` grid row by row, again and again. -/
def cycleRng (n : Nat) : Rng := fun i => (((i / n % n : Nat) : Int), ((i % n : Nat) : Int))

/-- A running game on the 5 × 5 grid whose snake is curled up: its head `(1, 0)`
is just below its tail `(0, 0)` and it is heading up. -/
def curledGame : SnakeGame :=
  { grid_size := 5, direction := 'u', is_paused := false, score := 30,
    food := (3, 3), poisonous_food := (2, 2), snake := [(0, 0), (0, 1), (1, 1), (1, 0)],
    sleep_duration := 470, rng := cycleRng 5 }

/-- A running game on the 5 × 5 grid, snake of three cells heading right, with
the food two cells ahead of the head and the poison elsewhere. -/
def plainGame : SnakeGame :=
  { grid_size := 5, direction := 'r', is_paused := false, score := 20,
    food := (0, 4), poisonous_food := (2, 2), snake := [(0, 0), (0, 1), (0, 2)],
    sleep_duration := 480, rng := cycleRng 5 }

/-- The game `plainGame` one normal move later: the food is right ahead of the head. -/
def hungryGame : SnakeGame :=
  { plainGame with snake := [(0, 1), (0, 2), (0, 3)] }

/-- The end of the food branch, after `spawn_food()` has returned the state `s2`:
`score += 10` and the update of `sleep_duration`. -/
def after_spawn (s2 : SnakeGame) : SnakeGame :=
  { s2 with
    score := wrap_int (s2.score + 10)
    sleep_duration :=
      if s2.sleep_duration - 10 ≥ min_sleep then s2.sleep_duration - 10 else s2.sleep_duration }

/-- A cell the rejection loop refuses: on the snake or the forbidden cell. -/
def Rejected (snake : List Pos) (forbidden : Pos) (p : Pos) : Prop :=
  p ∈ snake ∨ p = forbidden

/-- States of the game that a run of the program passes through: the
constructor, the prologue of `game_play`, iterations of its loop that do not
end the session, and keys handled by `input_handler` in between.  The draws
are those of `dist(0, size - 1)`, which the library defines for `size ≥ 1` only. -/
inductive Reachable : SnakeGame → Prop where
  | new (size : Int) (rng : Rng) (fuel : Nat) (s : SnakeGame) :
      RngInGrid size rng → SnakeGame.new size rng fuel = some s → Reachable s
  | prologue (fuel : Nat) (s s1 : SnakeGame) :
      Reachable s → game_play_begin fuel s = some s1 → Reachable s1
  | tick (fuel : Nat) (s s1 : SnakeGame) :
      Reachable s → game_play_step fuel s = Outcome.moved s1 → Reachable s1
  | key (input : Char) (s s1 : SnakeGame) :
      Reachable s → input_handler_step s input = some s1 → Reachable s1

/-- The cells `2 × 2` play visits in `cornerGame`: the draws of its generator, in a cycle. -/
def cornerCells : Nat → Pos
  | 0 => (0, 1)
  | 1 => (1, 0)
  | 2 => (1, 1)
  | _ => (0, 0)

/-- The generator of a game on the 2 × 2 grid. -/
def cornerRng : Rng := fun i => cornerCells (i % 4)

/-- The game on the 2 × 2 grid after its first food: the snake fills the upper
row and heads down to the food at `(1, 1)`; the poison is at `(1, 0)`. -/
def cornerGame : SnakeGame :=
  { grid_size := 2, direction := 'd', is_paused := false, score := 10,
    food := (1, 1), poisonous_food := (1, 0), snake := [(0, 0), (0, 1)],
    sleep_duration := 490, rng := fun i => cornerRng (i + 3) }

/-- The state in which the constructor `SnakeGame(1)` calls `spawn_food()`:
the snake cell `(0, 0)` is the whole 1 × 1 grid. -/
def tinyGame : SnakeGame :=
  { grid_size := 1, direction := 'r', is_paused := false, score := 0,
    food := (-1, -1), poisonous_food := (-1, -1), snake := [(0, 0)],
    sleep_duration := 500, rng := cycleRng 1 }

/-- The game `plainGame` after `spawn_food()`: the first three draws of
`cycleRng 5` are on the snake, the fourth is `(0, 3)`. -/
def plainGameFood : SnakeGame :=
  { plainGame with food := (0, 3), rng := fun i => cycleRng 5 (i + 4) }

/-- The game the constructor `SnakeGame(2)` builds from the generator `cornerRng`. -/
def cornerStart : SnakeGame :=
  { grid_size := 2, direction := 'r', is_paused := false, score := 0,
    food := (0, 1), poisonous_food := (1, 0), snake := [(0, 0)],
    sleep_duration := 500, rng := fun i => cornerRng (i + 2) }

/-- The game `cornerStart` after its first iteration, which eats the food at `(0, 1)`. -/
def cornerFed : SnakeGame :=
  { grid_size := 2, direction := 'r', is_paused := false, score := 10,
    food := (1, 1), poisonous_food := (1, 0), snake := [(0, 0), (0, 1)],
    sleep_duration := 490, rng := fun i => cornerRng (i + 3) }

/-- The game the constructor `SnakeGame(5)` builds from the generator `cycleRng 5`:
the draw `(0, 0)` is refused, `(0, 1)` becomes the food and `(0, 2)` the poison. -/
def freshGame : SnakeGame :=
  { grid_size := 5, direction := 'r', is_paused := false, score := 0,
    food := (0, 1), poisonous_food := (0, 2), snake := [(0, 0)],
    sleep_duration := 500, rng := fun i => cycleRng 5 (i + 3) }

/-- The game `hungryGame` after the keys `w` and `a`: heading left, back into its own body. -/
def turnedGame : SnakeGame :=
  { hungryGame with direction := 'l' }

/-- `sort(high_scores.rbegin(), high_scores.rend())`: ascending order along the
reverse iterators, that is the vector in descending order.  `std::sort` is
rendered by insertion sort; on integers every sorting algorithm gives the same
vector (see `sort_descending_unique`). -/
def sort_descending (high_scores : List Int) : List Int :=
  high_scores.insertionSort (fun a b => a ≥ b)

/-- The loop `for (size_t i = 0; i < high_scores.size() && i < 10; ++i)` of
`update_high_scores` that puts `high_scores[i]` on a line, from the index `i`
on and for at most `fuel` iterations.  The result is the lines put out. -/
def emit_loop (high_scores : List Int) : Nat → Nat → List Int
  | 0, _ => []
  | fuel + 1, i =>
    if h : i < high_scores.length ∧ i < 10 then
      high_scores.get ⟨i, h.1⟩ :: emit_loop high_scores fuel (i + 1)
    else
      []

/-- What `update_high_scores` puts out: the lines of `high_scores.txt` after
the call and the lines shown under the banner `--- Top 10 High Scores ---`. -/
structure HighScores where
  written : List Int
  displayed : List Int

/-- The member `SnakeGame::update_high_scores()`.  `file` is the sequence of
integers `while (infile >> s)` reads from `high_scores.txt`, `none` when the
file does not exist (the stream is then in a failed state and nothing is read).
Each of the two output loops stops at `i = 10`, so ten iterations are all it
can make. -/
def update_high_scores (s : SnakeGame) (file : Option (List Int)) : HighScores :=
  let read : List Int :=
    match file with
    | none => []
    | some ints => ints
  let high_scores := sort_descending (read ++ [s.score])
  { written := emit_loop high_scores 10 0, displayed := emit_loop high_scores 10 0 }

/-- The game of the test `WritesTop10WithCurrentScore`: `g.score = 999`. -/
def recordGame : SnakeGame :=
  { freshGame with score := 999 }

/-- The game `plainGame` with the pause flag set. -/
def pausedGame : SnakeGame :=
  { plainGame with is_paused := true }

/-- Something one of the two threads does: an iteration of the loop of
`game_play`, or the handling of one key by `input_handler`. -/
inductive Event where
  | tick (fuel : Nat)
  | key (input : Char)

/-- The game after the events `events`, in order: an iteration of `game_play`
that runs to its end or takes the pause branch goes on with the game it
leaves, a handled key likewise; `none` when an iteration ends the session or
does not return, or a key ends the process. -/
def run_events (s : SnakeGame) : List Event → Option SnakeGame
  | [] => some s
  | Event.tick fuel :: rest =>
    match game_play_step fuel s with
    | Outcome.moved s1 => run_events s1 rest
    | Outcome.paused s1 => run_events s1 rest
    | _ => none
  | Event.key input :: rest =>
    match input_handler_step s input with
    | none => none
    | some s1 => run_events s1 rest

/-- The events that ask for a direction: the keys `w`, `a`, `s`, `d`. -/
def is_direction_key : Event → Bool
  | Event.key input => input == 'w' || input == 'a' || input == 's' || input == 'd'
  | Event.tick _ => false

/-- The value `direction.load()` that an iteration of `game_play` passes to
`getNextHead`; an iteration that takes the pause branch loads none. -/
def direction_read (s : SnakeGame) : Option Char :=
  if s.is_paused then none else some s.direction

/-- The game `hungryGame` heading up. -/
def upGame : SnakeGame :=
  { hungryGame with direction := 'u' }

/-- The game `hungryGame` with a score ten below the largest `int`. -/
def richGame : SnakeGame :=
  { hungryGame with score := 2147483640 }

/-- A generator for a game on the `N × N` grid in which every food is served
right ahead of the snake: the first draw is `(0, 1)`, the second `(1, 0)`, the
draw number `i` is `(0, i mod N)`. -/
def rowRng (N : Nat) : Rng := fun i =>
  if i = 0 then (0, 1) else if i = 1 then (1, 0) else (0, ((i % N : Nat) : Int))

/-- The game on the `N × N` grid built from `rowRng N`, after `m` iterations
of `game_play`, each of which has eaten: the snake lies on the cells
`(0, 0)`, ..., `(0, m)` of the first row and the food is at `(0, m + 1)`. -/
def rowGame (N m : Nat) : SnakeGame :=
  { grid_size := (N : Int), direction := 'r', is_paused := false,
    score := wrap_int (10 * (m : Int)),
    food := (0, (m : Int) + 1), poisonous_food := (1, 0),
    snake := (List.range (m + 1)).map fun (j : Nat) => ((0 : Int), (j : Int)),
    sleep_duration := if m ≤ 45 then 500 - 10 * (m : Int) else 50,
    rng := fun i => rowRng N (i + (m + 2)) }

/-! ## `getNextHead` -/

/-- C1: on a grid of size `n ≥ 1`, moving right from `(r, c)` with `0 ≤ c < n`
gives `(r, c + 1)` when `c < n - 1` and `(r, 0)` when `c = n - 1`; the row is
never changed. -/
theorem getNextHead_right (n r c : Int) (_hn : 1 ≤ n) (hc0 : 0 ≤ c) (_hcn : c < n) :
    (c < n - 1 → getNextHead (r, c) 'r' n = (r, c + 1)) ∧
    (c = n - 1 → getNextHead (r, c) 'r' n = (r, 0)) ∧
    (getNextHead (r, c) 'r' n).1 = r := by
  refine ⟨fun h => ?_, fun h => ?_, ?_⟩
  · have : Int.tmod (c + 1) n = c + 1 := Int.tmod_eq_of_lt (by omega) (by omega)
    simp [getNextHead, this]
  · have : c + 1 = n := by omega
    simp [getNextHead, this, Int.tmod_self]
  · simp [getNextHead]

/-- Witness of C1 on the 5 × 5 grid at the cell `(0, 4)` of the test `RightWrap`. -/
theorem getNextHead_right_witness :
    (1 : Int) ≤ 5 ∧ (0 : Int) ≤ 4 ∧ (4 : Int) < 5 ∧
    (((4 : Int) < 5 - 1 → getNextHead (0, 4) 'r' 5 = (0, 4 + 1)) ∧
     ((4 : Int) = 5 - 1 → getNextHead (0, 4) 'r' 5 = (0, 0)) ∧
     (getNextHead (0, 4) 'r' 5).1 = 0) :=
  ⟨by decide, by decide, by decide,
    getNextHead_right 5 0 4 (by decide) (by decide) (by decide)⟩

/-- C2: on a grid of size `n ≥ 1` and at a cell `(r, c)` of the grid, moving
left gives `(r, c - 1)` when `c > 0` and `(r, n - 1)` when `c = 0`; moving down
gives `(r + 1, c)` when `r < n - 1` and `(0, c)` when `r = n - 1`; moving up
gives `(r - 1, c)` when `r > 0` and `(n - 1, c)` when `r = 0`.  The other
coordinate is unchanged in each case. -/
theorem getNextHead_left_down_up (n r c : Int) (_hn : 1 ≤ n) (hrc : InGrid n (r, c)) :
    ((0 < c → getNextHead (r, c) 'l' n = (r, c - 1)) ∧
     (c = 0 → getNextHead (r, c) 'l' n = (r, n - 1)) ∧
     (getNextHead (r, c) 'l' n).1 = r) ∧
    ((r < n - 1 → getNextHead (r, c) 'd' n = (r + 1, c)) ∧
     (r = n - 1 → getNextHead (r, c) 'd' n = (0, c)) ∧
     (getNextHead (r, c) 'd' n).2 = c) ∧
    ((0 < r → getNextHead (r, c) 'u' n = (r - 1, c)) ∧
     (r = 0 → getNextHead (r, c) 'u' n = (n - 1, c)) ∧
     (getNextHead (r, c) 'u' n).2 = c) := by
  obtain ⟨hr0, hrn, hc0, hcn⟩ := hrc
  simp only at hr0 hrn hc0 hcn
  refine ⟨⟨fun h => ?_, fun h => ?_, ?_⟩, ⟨fun h => ?_, fun h => ?_, ?_⟩,
    ⟨fun h => ?_, fun h => ?_, ?_⟩⟩
  · have : c ≠ 0 := by omega
    simp [getNextHead, this]
  · simp [getNextHead, h]
  · simp [getNextHead]
  · have : Int.tmod (r + 1) n = r + 1 := Int.tmod_eq_of_lt (by omega) (by omega)
    simp [getNextHead, this]
  · have : r + 1 = n := by omega
    simp [getNextHead, this, Int.tmod_self]
  · simp [getNextHead]
  · have : r ≠ 0 := by omega
    simp [getNextHead, this]
  · simp [getNextHead, h]
  · simp [getNextHead]

/-- Witness of C2 on the 5 × 5 grid at the corner cell `(0, 0)`. -/
theorem getNextHead_left_down_up_witness :
    (1 : Int) ≤ 5 ∧ InGrid 5 (0, 0) ∧
    getNextHead (0, 0) 'l' 5 = (0, 4) ∧ getNextHead (0, 0) 'd' 5 = (1, 0) ∧
    getNextHead (0, 0) 'u' 5 = (4, 0) :=
  have hg : InGrid 5 (0, 0) := by simp [InGrid]
  have h := getNextHead_left_down_up 5 0 0 (by decide) hg
  ⟨by decide, hg, h.1.2.1 rfl, h.2.1.1 (by decide), h.2.2.2.1 rfl⟩

/-! ## One iteration of `game_play` -/

/-- The comparison `head.first == p.first && head.second == p.second` is equality of cells. -/
lemma fst_snd_eq_iff (p q : Pos) : (p.1 = q.1 ∧ p.2 = q.2) ↔ p = q :=
  Prod.ext_iff.symm

/-- The self-collision branch of `game_play_step`. -/
lemma game_play_step_self (fuel : Nat) (s : SnakeGame) (back : Pos)
    (hrun : s.is_paused = false) (hback : s.snake.getLast? = some back)
    (h1 : getNextHead back s.direction s.grid_size ∈ s.snake) :
    game_play_step fuel s = Outcome.gameOver GameOverReason.selfCollision s.score s := by
  have hp : ¬ (s.is_paused = true) := by simp [hrun]
  unfold game_play_step
  rw [if_neg hp]
  simp only [hback]
  rw [if_pos h1]

/-- The poison branch of `game_play_step`. -/
lemma game_play_step_poison (fuel : Nat) (s : SnakeGame) (back : Pos)
    (hrun : s.is_paused = false) (hback : s.snake.getLast? = some back)
    (h1 : getNextHead back s.direction s.grid_size ∉ s.snake)
    (h2 : getNextHead back s.direction s.grid_size = s.poisonous_food) :
    game_play_step fuel s = Outcome.gameOver GameOverReason.poisonEaten s.score s := by
  have h2' := (fst_snd_eq_iff _ _).mpr h2
  have hp : ¬ (s.is_paused = true) := by simp [hrun]
  unfold game_play_step
  rw [if_neg hp]
  simp only [hback]
  rw [if_neg h1, if_pos h2']

/-- The food branch of `game_play_step`. -/
lemma game_play_step_food (fuel : Nat) (s : SnakeGame) (back : Pos)
    (hrun : s.is_paused = false) (hback : s.snake.getLast? = some back)
    (h1 : getNextHead back s.direction s.grid_size ∉ s.snake)
    (h2 : getNextHead back s.direction s.grid_size ≠ s.poisonous_food)
    (h3 : getNextHead back s.direction s.grid_size = s.food) :
    game_play_step fuel s =
      match spawn_food fuel
          { s with snake := s.snake ++ [getNextHead back s.direction s.grid_size] } with
      | none => Outcome.spawnSpins
      | some s2 => Outcome.moved (after_spawn s2) := by
  have h2' := (not_congr (fst_snd_eq_iff _ _)).mpr h2
  have h3' := (fst_snd_eq_iff _ _).mpr h3
  have hp : ¬ (s.is_paused = true) := by simp [hrun]
  unfold game_play_step
  rw [if_neg hp]
  simp only [hback]
  rw [if_neg h1, if_neg h2', if_pos h3']
  generalize spawn_food fuel
      { s with snake := s.snake ++ [getNextHead back s.direction s.grid_size] } = r
  cases r with
  | none => rfl
  | some s2 =>
    simp only [after_spawn]
    split_ifs <;> rfl

/-- The normal move of `game_play_step`. -/
lemma game_play_step_normal (fuel : Nat) (s : SnakeGame) (back : Pos)
    (hrun : s.is_paused = false) (hback : s.snake.getLast? = some back)
    (h1 : getNextHead back s.direction s.grid_size ∉ s.snake)
    (h2 : getNextHead back s.direction s.grid_size ≠ s.poisonous_food)
    (h3 : getNextHead back s.direction s.grid_size ≠ s.food) :
    game_play_step fuel s =
      Outcome.moved
        { s with snake := (s.snake ++ [getNextHead back s.direction s.grid_size]).tail } := by
  have h2' := (not_congr (fst_snd_eq_iff _ _)).mpr h2
  have h3' := (not_congr (fst_snd_eq_iff _ _)).mpr h3
  have hp : ¬ (s.is_paused = true) := by simp [hrun]
  unfold game_play_step
  rw [if_neg hp]
  simp only [hback]
  rw [if_neg h1, if_neg h2', if_neg h3']

/-- In a running game with a head, an iteration never ends in the pause
branch nor on an empty deque. -/
lemma game_play_step_cases (fuel : Nat) (s : SnakeGame) (back : Pos)
    (hrun : s.is_paused = false) (hback : s.snake.getLast? = some back) :
    game_play_step fuel s = Outcome.gameOver GameOverReason.selfCollision s.score s ∧
        getNextHead back s.direction s.grid_size ∈ s.snake ∨
    game_play_step fuel s = Outcome.gameOver GameOverReason.poisonEaten s.score s ∧
        getNextHead back s.direction s.grid_size ∉ s.snake ∧
        getNextHead back s.direction s.grid_size = s.poisonous_food ∨
    (game_play_step fuel s = Outcome.spawnSpins ∨
        ∃ s2, spawn_food fuel
          { s with snake := s.snake ++ [getNextHead back s.direction s.grid_size] } = some s2 ∧
          game_play_step fuel s = Outcome.moved (after_spawn s2)) ∧
        getNextHead back s.direction s.grid_size ∉ s.snake ∧
        getNextHead back s.direction s.grid_size ≠ s.poisonous_food ∧
        getNextHead back s.direction s.grid_size = s.food ∨
    game_play_step fuel s = Outcome.moved
        { s with snake := (s.snake ++ [getNextHead back s.direction s.grid_size]).tail } ∧
        getNextHead back s.direction s.grid_size ∉ s.snake ∧
        getNextHead back s.direction s.grid_size ≠ s.poisonous_food ∧
        getNextHead back s.direction s.grid_size ≠ s.food := by
  by_cases h1 : getNextHead back s.direction s.grid_size ∈ s.snake
  · exact Or.inl ⟨game_play_step_self fuel s back hrun hback h1, h1⟩
  by_cases h2 : getNextHead back s.direction s.grid_size = s.poisonous_food
  · exact Or.inr (Or.inl ⟨game_play_step_poison fuel s back hrun hback h1 h2, h1, h2⟩)
  by_cases h3 : getNextHead back s.direction s.grid_size = s.food
  · refine Or.inr (Or.inr (Or.inl ⟨?_, h1, h2, h3⟩))
    have h := game_play_step_food fuel s back hrun hback h1 h2 h3
    cases hsp : spawn_food fuel
        { s with snake := s.snake ++ [getNextHead back s.direction s.grid_size] } with
    | none => rw [hsp] at h; exact Or.inl h
    | some s2 => rw [hsp] at h; exact Or.inr ⟨s2, rfl, h⟩
  · exact Or.inr (Or.inr (Or.inr ⟨game_play_step_normal fuel s back hrun hback h1 h2 h3, h1, h2, h3⟩))

/-- C3: in a running (not paused) game with `head = getNextHead(snake.back(), direction, grid_size)`,
the iteration ends the session with the self-collision game over exactly when
`head` is a cell of the snake (any cell, the tail cell included, whatever the
food and the poison are), and with the poison game over exactly when `head` is
not on the snake and is the poison cell.  In both cases the score read by
`update_high_scores` is the score before the iteration and the game state,
the snake included, is the one before the iteration. -/
theorem game_play_step_game_over (fuel : Nat) (s : SnakeGame) (back : Pos)
    (hrun : s.is_paused = false) (hback : s.snake.getLast? = some back) :
    ((∃ sc st, game_play_step fuel s = Outcome.gameOver GameOverReason.selfCollision sc st) ↔
      getNextHead back s.direction s.grid_size ∈ s.snake) ∧
    ((∃ sc st, game_play_step fuel s = Outcome.gameOver GameOverReason.poisonEaten sc st) ↔
      (getNextHead back s.direction s.grid_size ∉ s.snake ∧
        getNextHead back s.direction s.grid_size = s.poisonous_food)) ∧
    (∀ r sc st, game_play_step fuel s = Outcome.gameOver r sc st → sc = s.score ∧ st = s) := by
  refine ⟨⟨fun ⟨sc, st, h0⟩ => ?_, fun h1 => ⟨_, _, game_play_step_self fuel s back hrun hback h1⟩⟩,
    ⟨fun ⟨sc, st, h0⟩ => ?_,
      fun ⟨h1, h2⟩ => ⟨_, _, game_play_step_poison fuel s back hrun hback h1 h2⟩⟩,
    fun r sc st h0 => ?_⟩
  all_goals
    rcases game_play_step_cases fuel s back hrun hback with
      ⟨h, h1⟩ | ⟨h, h1, h2⟩ | ⟨h | ⟨s2, -, h⟩, h1, h2, -⟩ | ⟨h, h1, h2, -⟩ <;>
    rw [h] at h0 <;> cases h0 <;>
    first | exact h1 | exact ⟨h1, h2⟩ | exact ⟨rfl, rfl⟩

/-- Witness of C3: the curled-up snake of `curledGame` moves up onto its own tail cell. -/
theorem game_play_step_game_over_witness :
    curledGame.is_paused = false ∧ curledGame.snake.getLast? = some (1, 0) ∧
    getNextHead (1, 0) curledGame.direction curledGame.grid_size = (0, 0) ∧
    (∃ sc st, game_play_step 0 curledGame =
      Outcome.gameOver GameOverReason.selfCollision sc st) :=
  ⟨rfl, rfl, by decide,
    (game_play_step_game_over 0 curledGame (1, 0) rfl rfl).1.2 (by decide)⟩

/-- C5: in a running game whose next head cell is neither on the snake, nor the
poison, nor the food, one iteration yields the old snake without its oldest
element (the front of the deque) and with the next head cell appended; the
length of the snake, the score, the tick interval, the food and the poison are
unchanged. -/
theorem game_play_step_normal_move (fuel : Nat) (s : SnakeGame) (back : Pos)
    (hrun : s.is_paused = false) (hback : s.snake.getLast? = some back)
    (h1 : getNextHead back s.direction s.grid_size ∉ s.snake)
    (h2 : getNextHead back s.direction s.grid_size ≠ s.poisonous_food)
    (h3 : getNextHead back s.direction s.grid_size ≠ s.food) :
    ∃ s1, game_play_step fuel s = Outcome.moved s1 ∧
      s1.snake = s.snake.tail ++ [getNextHead back s.direction s.grid_size] ∧
      s1.snake.getLast? = some (getNextHead back s.direction s.grid_size) ∧
      s1.snake.length = s.snake.length ∧
      s1.score = s.score ∧ s1.sleep_duration = s.sleep_duration ∧
      s1.food = s.food ∧ s1.poisonous_food = s.poisonous_food := by
  refine ⟨_, game_play_step_normal fuel s back hrun hback h1 h2 h3, ?_⟩
  have hne : s.snake ≠ [] := by
    intro h
    rw [h] at hback
    cases hback
  obtain ⟨x, xs, hxs⟩ := List.exists_cons_of_ne_nil hne
  simp [hxs]

/-- Witness of C5: `plainGame` moves one cell to the right. -/
theorem game_play_step_normal_move_witness :
    plainGame.is_paused = false ∧ plainGame.snake.getLast? = some (0, 2) ∧
    getNextHead (0, 2) plainGame.direction plainGame.grid_size ∉ plainGame.snake ∧
    getNextHead (0, 2) plainGame.direction plainGame.grid_size ≠ plainGame.poisonous_food ∧
    getNextHead (0, 2) plainGame.direction plainGame.grid_size ≠ plainGame.food ∧
    (∃ s1, game_play_step 0 plainGame = Outcome.moved s1 ∧
      s1.snake = [(0, 1), (0, 2), (0, 3)] ∧ s1.score = 20) :=
  ⟨rfl, rfl, by decide, by decide, by decide,
    (game_play_step_normal_move 0 plainGame (0, 2) rfl rfl (by decide) (by decide)
      (by decide)).imp fun _ h => ⟨h.1, h.2.1, h.2.2.2.2.1⟩⟩

/-! ## The rejection loop of `spawn_food` and `spawn_poison` -/

lemma spawn_loop_zero (snake : List Pos) (forbidden : Pos) (rng : Rng) :
    spawn_loop snake forbidden 0 rng = none := rfl

lemma spawn_loop_succ_rejected (snake : List Pos) (forbidden : Pos) (fuel : Nat) (rng : Rng)
    (h : Rejected snake forbidden (rng 0)) :
    spawn_loop snake forbidden (fuel + 1) rng = spawn_loop snake forbidden fuel rng.next := by
  unfold Rejected at h
  simp only [spawn_loop]
  rw [if_pos h]

lemma spawn_loop_succ_accepted (snake : List Pos) (forbidden : Pos) (fuel : Nat) (rng : Rng)
    (h : ¬ Rejected snake forbidden (rng 0)) :
    spawn_loop snake forbidden (fuel + 1) rng = some (rng 0, rng.next) := by
  unfold Rejected at h
  simp only [spawn_loop]
  rw [if_neg h]

/-- The loop is still running after `fuel` iterations exactly when the first
`fuel` draws were all refused. -/
lemma spawn_loop_eq_none_iff (snake : List Pos) (forbidden : Pos) :
    ∀ (fuel : Nat) (rng : Rng),
      spawn_loop snake forbidden fuel rng = none ↔
        ∀ i, i < fuel → Rejected snake forbidden (rng i) := by
  intro fuel
  induction fuel with
  | zero => intro rng; simp [spawn_loop_zero]
  | succ fuel ih =>
    intro rng
    by_cases h : Rejected snake forbidden (rng 0)
    · rw [spawn_loop_succ_rejected snake forbidden fuel rng h, ih]
      constructor
      · intro hall i hi
        cases i with
        | zero => exact h
        | succ i => exact hall i (by omega)
      · intro hall i hi
        exact hall (i + 1) (by omega)
    · rw [spawn_loop_succ_accepted snake forbidden fuel rng h]
      constructor
      · intro h0; cases h0
      · intro hall; exact absurd (hall 0 (by omega)) h

/-- What the loop returns: the first draw that is not refused, and the
generator after that draw. -/
lemma spawn_loop_eq_some (snake : List Pos) (forbidden : Pos) :
    ∀ (fuel : Nat) (rng : Rng) (p : Pos) (rng1 : Rng),
      spawn_loop snake forbidden fuel rng = some (p, rng1) →
        ∃ k, k < fuel ∧ p = rng k ∧ rng1 = (fun i => rng (i + (k + 1))) ∧
          ¬ Rejected snake forbidden (rng k) ∧
          ∀ j, j < k → Rejected snake forbidden (rng j) := by
  intro fuel
  induction fuel with
  | zero => intro rng p rng1 h; cases h
  | succ fuel ih =>
    intro rng p rng1 h
    by_cases hr : Rejected snake forbidden (rng 0)
    · rw [spawn_loop_succ_rejected snake forbidden fuel rng hr] at h
      obtain ⟨k, hk, hp, hrng, hacc, hrej⟩ := ih rng.next p rng1 h
      refine ⟨k + 1, by omega, hp, ?_, hacc, ?_⟩
      · rw [hrng]
        funext i
        simp only [Rng.next]
        congr 1
      · intro j hj
        cases j with
        | zero => exact hr
        | succ j => exact hrej j (by omega)
    · rw [spawn_loop_succ_accepted snake forbidden fuel rng hr] at h
      cases h
      exact ⟨0, by omega, rfl, rfl, hr, fun j hj => absurd hj (by omega)⟩

/-- The loop leaves as soon as a draw is not refused: with the `k`-th draw
accepted, any bound above `k` is enough. -/
lemma spawn_loop_terminates (snake : List Pos) (forbidden : Pos) (rng : Rng) (k : Nat)
    (hk : ¬ Rejected snake forbidden (rng k)) (fuel : Nat) (hfuel : k < fuel) :
    ∃ r, spawn_loop snake forbidden fuel rng = some r := by
  cases h : spawn_loop snake forbidden fuel rng with
  | some r => exact ⟨r, rfl⟩
  | none => exact absurd ((spawn_loop_eq_none_iff snake forbidden fuel rng).mp h k hfuel) hk

/-- Once the loop has left, a larger bound does not change what it returns. -/
lemma spawn_loop_mono (snake : List Pos) (forbidden : Pos) :
    ∀ (fuel : Nat) (rng : Rng) (r : Pos × Rng) (more : Nat),
      spawn_loop snake forbidden fuel rng = some r →
        spawn_loop snake forbidden (fuel + more) rng = some r := by
  intro fuel
  induction fuel with
  | zero => intro rng r more h; cases h
  | succ fuel ih =>
    intro rng r more h
    have hsucc : fuel + 1 + more = (fuel + more) + 1 := by omega
    rw [hsucc]
    by_cases hr : Rejected snake forbidden (rng 0)
    · rw [spawn_loop_succ_rejected snake forbidden fuel rng hr] at h
      rw [spawn_loop_succ_rejected snake forbidden (fuel + more) rng hr]
      exact ih rng.next r more h
    · rw [spawn_loop_succ_accepted snake forbidden fuel rng hr] at h
      rw [spawn_loop_succ_accepted snake forbidden (fuel + more) rng hr]
      exact h

lemma rngInGrid_next (grid : Int) (rng : Rng) (h : RngInGrid grid rng) :
    RngInGrid grid rng.next :=
  fun i => h (i + 1)

lemma cycleRng_inGrid (n : Nat) (hn : 0 < n) : RngInGrid (n : Int) (cycleRng n) := by
  intro i
  have h1 : i / n % n < n := Nat.mod_lt _ hn
  have h2 : i % n < n := Nat.mod_lt _ hn
  simp only [cycleRng]
  omega

/-- C7: whenever the rejection loop of `spawn_food` leaves, the cell stored in
`food` is a cell of the grid, is not on the snake and is not the poison cell,
and the snake and the poison are as before; likewise the cell `spawn_poison`
stores in `poisonous_food` is on the grid, not on the snake and not the food
cell, and the snake and the food are as before.  The draws are those of
`uniform_int_distribution<int>(0, grid_size - 1)`. -/
theorem spawn_food_poison_spec (fuel : Nat) (s s1 : SnakeGame)
    (hrng : RngInGrid s.grid_size s.rng) :
    (spawn_food fuel s = some s1 →
      InGrid s.grid_size s1.food ∧ s1.food ∉ s.snake ∧ s1.food ≠ s.poisonous_food ∧
        s1.snake = s.snake ∧ s1.poisonous_food = s.poisonous_food) ∧
    (spawn_poison fuel s = some s1 →
      InGrid s.grid_size s1.poisonous_food ∧ s1.poisonous_food ∉ s.snake ∧
        s1.poisonous_food ≠ s.food ∧ s1.snake = s.snake ∧ s1.food = s.food) := by
  constructor
  · intro h
    unfold spawn_food at h
    cases hl : spawn_loop s.snake s.poisonous_food fuel s.rng with
    | none => rw [hl] at h; cases h
    | some r =>
      obtain ⟨p, rng1⟩ := r
      rw [hl] at h
      cases h
      obtain ⟨k, -, hp, -, hacc, -⟩ := spawn_loop_eq_some _ _ _ _ _ _ hl
      subst hp
      exact ⟨hrng k, fun hm => hacc (Or.inl hm), fun he => hacc (Or.inr he), rfl, rfl⟩
  · intro h
    unfold spawn_poison at h
    cases hl : spawn_loop s.snake s.food fuel s.rng with
    | none => rw [hl] at h; cases h
    | some r =>
      obtain ⟨p, rng1⟩ := r
      rw [hl] at h
      cases h
      obtain ⟨k, -, hp, -, hacc, -⟩ := spawn_loop_eq_some _ _ _ _ _ _ hl
      subst hp
      exact ⟨hrng k, fun hm => hacc (Or.inl hm), fun he => hacc (Or.inr he), rfl, rfl⟩

/-- Witness of C7: `spawn_food()` in `plainGame` refuses three draws on the
snake and stores `(0, 3)`. -/
theorem spawn_food_poison_spec_witness :
    RngInGrid plainGame.grid_size plainGame.rng ∧
    spawn_food 4 plainGame = some plainGameFood ∧
    (InGrid plainGame.grid_size plainGameFood.food ∧ plainGameFood.food ∉ plainGame.snake ∧
      plainGameFood.food ≠ plainGame.poisonous_food ∧
      plainGameFood.snake = plainGame.snake ∧
      plainGameFood.poisonous_food = plainGame.poisonous_food) :=
  ⟨cycleRng_inGrid 5 (by decide), rfl,
    (spawn_food_poison_spec 4 plainGame plainGameFood (cycleRng_inGrid 5 (by decide))).1 rfl⟩

/-- With every draw refused, `spawn_food` is still in its loop after any number of iterations. -/
lemma spawn_food_none_of_rejected (s : SnakeGame)
    (h : ∀ i, Rejected s.snake s.poisonous_food (s.rng i)) (fuel : Nat) :
    spawn_food fuel s = none := by
  unfold spawn_food
  rw [(spawn_loop_eq_none_iff s.snake s.poisonous_food fuel s.rng).mpr fun i _ => h i]

/-- With every draw refused, `spawn_poison` is still in its loop after any number of iterations. -/
lemma spawn_poison_none_of_rejected (s : SnakeGame)
    (h : ∀ i, Rejected s.snake s.food (s.rng i)) (fuel : Nat) :
    spawn_poison fuel s = none := by
  unfold spawn_poison
  rw [(spawn_loop_eq_none_iff s.snake s.food fuel s.rng).mpr fun i _ => h i]

/-- The only cell of the 1 × 1 grid is `(0, 0)`. -/
lemma inGrid_one (p : Pos) (h : InGrid 1 p) : p = (0, 0) := by
  obtain ⟨h1, h2, h3, h4⟩ := h
  exact Prod.ext (by simp only; omega) (by simp only; omega)

/-- C8, refuted: in `tinyGame`, the state in which the constructor `SnakeGame(1)`
calls `spawn_food()`, the snake covers the whole grid, the draws are cells of
the grid, and neither `spawn_food` nor `spawn_poison` ever leaves its loop: no
number of iterations gives a result, and there is no failure result. -/
theorem spawn_full_grid_counterexample :
    (∀ p, InGrid tinyGame.grid_size p →
      p ∈ tinyGame.snake ∨ p = tinyGame.poisonous_food) ∧
    (∀ p, InGrid tinyGame.grid_size p → p ∈ tinyGame.snake ∨ p = tinyGame.food) ∧
    RngInGrid tinyGame.grid_size tinyGame.rng ∧
    (¬ ∃ fuel s1, spawn_food fuel tinyGame = some s1) ∧
    (¬ ∃ fuel s1, spawn_poison fuel tinyGame = some s1) ∧
    (∀ fuel, SnakeGame.new 1 (cycleRng 1) fuel = none) := by
  have hcov : ∀ p, InGrid 1 p → p ∈ [((0 : Int), (0 : Int))] := fun p hp => by
    rw [inGrid_one p hp]; exact List.mem_singleton.mpr rfl
  have hrng : RngInGrid 1 (cycleRng 1) := cycleRng_inGrid 1 (by decide)
  have hrej : ∀ q i, Rejected [((0 : Int), (0 : Int))] q (cycleRng 1 i) :=
    fun q i => Or.inl (hcov _ (hrng i))
  have hfood : ∀ fuel, spawn_food fuel tinyGame = none :=
    spawn_food_none_of_rejected tinyGame (hrej _)
  have hpoison : ∀ fuel, spawn_poison fuel tinyGame = none :=
    spawn_poison_none_of_rejected tinyGame (hrej _)
  refine ⟨fun p hp => Or.inl (hcov p hp), fun p hp => Or.inl (hcov p hp), hrng, ?_, ?_, ?_⟩
  · rintro ⟨fuel, s1, h⟩
    rw [hfood fuel] at h
    cases h
  · rintro ⟨fuel, s1, h⟩
    rw [hpoison fuel] at h
    cases h
  · intro fuel
    have h := hfood fuel
    unfold tinyGame at h
    unfold SnakeGame.new
    simp only [h]

/-- C8, amended: when the snake together with the forbidden cell covers every
cell of the grid, `spawn_food` (forbidden cell: the poison) and `spawn_poison`
(forbidden cell: the food) refuse every draw: whatever the draws on the grid
and however many iterations are run, the loop has not left and no cell has
been stored. -/
theorem spawn_full_grid_spins (s : SnakeGame) (hrng : RngInGrid s.grid_size s.rng) :
    ((∀ p, InGrid s.grid_size p → p ∈ s.snake ∨ p = s.poisonous_food) →
      ∀ fuel, spawn_food fuel s = none) ∧
    ((∀ p, InGrid s.grid_size p → p ∈ s.snake ∨ p = s.food) →
      ∀ fuel, spawn_poison fuel s = none) :=
  ⟨fun hcov => spawn_food_none_of_rejected s fun i => hcov _ (hrng i),
    fun hcov => spawn_poison_none_of_rejected s fun i => hcov _ (hrng i)⟩

/-- Witness of C8 (amended): `spawn_food()` in `tinyGame` is still running after 1000 iterations. -/
theorem spawn_full_grid_spins_witness :
    RngInGrid tinyGame.grid_size tinyGame.rng ∧
    (∀ p, InGrid tinyGame.grid_size p → p ∈ tinyGame.snake ∨ p = tinyGame.poisonous_food) ∧
    spawn_food 1000 tinyGame = none :=
  have hrng : RngInGrid tinyGame.grid_size tinyGame.rng := cycleRng_inGrid 1 (by decide)
  have hcov : ∀ p, InGrid tinyGame.grid_size p →
      p ∈ tinyGame.snake ∨ p = tinyGame.poisonous_food :=
    fun p hp => Or.inl (by rw [inGrid_one p hp]; exact List.mem_singleton.mpr rfl)
  ⟨hrng, hcov, (spawn_full_grid_spins tinyGame hrng).1 hcov 1000⟩

/-! ## Eating -/

/-- An integer in the range of `int` is its own 32-bit value. -/
lemma wrap_int_of_range (x : Int) (hlo : -2147483648 ≤ x) (hhi : x ≤ 2147483647) :
    wrap_int x = x := by
  unfold wrap_int
  omega

/-- Adding to a 32-bit value and reducing again is reducing the sum. -/
lemma wrap_int_add (x y : Int) : wrap_int (wrap_int x + y) = wrap_int (x + y) := by
  unfold wrap_int
  omega

lemma cornerRng_inGrid : RngInGrid 2 cornerRng := by
  intro i
  simp only [cornerRng]
  generalize i % 4 = m
  match m with
  | 0 => decide
  | 1 => decide
  | 2 => decide
  | _ + 3 => simp [cornerCells]

/-- The game `cornerGame` arises in play on the 2 × 2 grid: construction, one
iteration that eats the first food, then the key `s`. -/
lemma cornerGame_reachable : Reachable cornerGame :=
  Reachable.key 's' cornerFed cornerGame
    (Reachable.tick 1 cornerStart cornerFed
      (Reachable.new 2 cornerRng 1 cornerStart cornerRng_inGrid rfl) rfl) rfl

/-- `spawn_food` changes the food and the generator only. -/
lemma spawn_food_frame (fuel : Nat) (s s1 : SnakeGame) (h : spawn_food fuel s = some s1) :
    s1.grid_size = s.grid_size ∧ s1.direction = s.direction ∧ s1.is_paused = s.is_paused ∧
      s1.score = s.score ∧ s1.poisonous_food = s.poisonous_food ∧ s1.snake = s.snake ∧
      s1.sleep_duration = s.sleep_duration := by
  unfold spawn_food at h
  cases hl : spawn_loop s.snake s.poisonous_food fuel s.rng with
  | none => rw [hl] at h; cases h
  | some r =>
    rw [hl] at h
    cases h
    exact ⟨rfl, rfl, rfl, rfl, rfl, rfl, rfl⟩

/-- `spawn_poison` changes the poison and the generator only. -/
lemma spawn_poison_frame (fuel : Nat) (s s1 : SnakeGame) (h : spawn_poison fuel s = some s1) :
    s1.grid_size = s.grid_size ∧ s1.direction = s.direction ∧ s1.is_paused = s.is_paused ∧
      s1.score = s.score ∧ s1.food = s.food ∧ s1.snake = s.snake ∧
      s1.sleep_duration = s.sleep_duration := by
  unfold spawn_poison at h
  cases hl : spawn_loop s.snake s.food fuel s.rng with
  | none => rw [hl] at h; cases h
  | some r =>
    rw [hl] at h
    cases h
    exact ⟨rfl, rfl, rfl, rfl, rfl, rfl, rfl⟩

/-- `spawn_food` leaves its loop as soon as a draw is not refused. -/
lemma spawn_food_terminates (s : SnakeGame) (k : Nat)
    (hk : ¬ Rejected s.snake s.poisonous_food (s.rng k)) (fuel : Nat) (hfuel : k < fuel) :
    ∃ s1, spawn_food fuel s = some s1 := by
  obtain ⟨r, hr⟩ := spawn_loop_terminates s.snake s.poisonous_food s.rng k hk fuel hfuel
  unfold spawn_food
  rw [hr]
  exact ⟨_, rfl⟩

/-- Every cell of the 2 × 2 grid is on the grown snake of `cornerGame` or is its poison. -/
lemma cornerCells_rejected (i : Nat) :
    Rejected [(0, 0), (0, 1), (1, 1)] (1, 0) (cornerCells i) := by
  unfold Rejected
  match i with
  | 0 => decide
  | 1 => decide
  | 2 => decide
  | _ + 3 => exact Or.inl (List.mem_cons_self _ _)

/-- C4, refuted: in `cornerGame` (2 × 2 grid, snake on the upper row heading
down, food at `(1, 1)`, poison at `(1, 0)`), a state reached in play, the game
is running and the next head
cell is off the snake, is not the poison and is the food, yet no iteration of
`game_play` completes: after `snake.push_back(head)` the snake and the poison
cover the grid, `spawn_food()` never returns, and `score += 10` is never reached.
And in `richGame`, where an iteration that eats does complete, the score
`2147483640` becomes `-2147483646`, not the score plus 10. -/
theorem game_play_step_eat_counterexample :
    cornerGame.is_paused = false ∧ cornerGame.snake.getLast? = some (0, 1) ∧
    getNextHead (0, 1) cornerGame.direction cornerGame.grid_size ∉ cornerGame.snake ∧
    getNextHead (0, 1) cornerGame.direction cornerGame.grid_size ≠ cornerGame.poisonous_food ∧
    getNextHead (0, 1) cornerGame.direction cornerGame.grid_size = cornerGame.food ∧
    Reachable cornerGame ∧
    (∀ fuel, game_play_step fuel cornerGame = Outcome.spawnSpins) ∧
    (¬ ∃ fuel s1, game_play_step fuel cornerGame = Outcome.moved s1) ∧
    (richGame.is_paused = false ∧ richGame.snake.getLast? = some (0, 3) ∧
      getNextHead (0, 3) richGame.direction richGame.grid_size ∉ richGame.snake ∧
      getNextHead (0, 3) richGame.direction richGame.grid_size ≠ richGame.poisonous_food ∧
      getNextHead (0, 3) richGame.direction richGame.grid_size = richGame.food ∧
      richGame.score = 2147483640 ∧
      ∃ s1, game_play_step 6 richGame = Outcome.moved s1 ∧ s1.score = -2147483646 ∧
        s1.score ≠ richGame.score + 10) := by
  have hspin : ∀ fuel, game_play_step fuel cornerGame = Outcome.spawnSpins := by
    intro fuel
    rw [game_play_step_food fuel cornerGame (0, 1) rfl rfl (by decide) (by decide) (by decide)]
    rw [spawn_food_none_of_rejected _ (fun i => cornerCells_rejected _) fuel]
  refine ⟨rfl, rfl, by decide, by decide, by decide, cornerGame_reachable, hspin, ?_,
    rfl, rfl, by decide, by decide, by decide, rfl, _, rfl, rfl, by decide⟩
  rintro ⟨fuel, s1, h⟩
  rw [hspin fuel] at h
  cases h

/-- C4, amended: in a running game whose next head cell is off the snake, is
not the poison and is the food, an iteration that completes yields the old
snake with the next head cell appended and nothing removed (one cell longer)
and the score after the `int` addition `score += 10`, which is the score plus
10 whenever the score is at most `2147483637`; and the iteration does complete
as soon as one of the coming draws is a cell that is neither on the grown
snake nor the poison. -/
theorem game_play_step_eat (s : SnakeGame) (back : Pos)
    (hrun : s.is_paused = false) (hback : s.snake.getLast? = some back)
    (h1 : getNextHead back s.direction s.grid_size ∉ s.snake)
    (h2 : getNextHead back s.direction s.grid_size ≠ s.poisonous_food)
    (h3 : getNextHead back s.direction s.grid_size = s.food) :
    (∀ fuel s1, game_play_step fuel s = Outcome.moved s1 →
      s1.snake = s.snake ++ [getNextHead back s.direction s.grid_size] ∧
      s1.snake.length = s.snake.length + 1 ∧
      s1.score = wrap_int (s.score + 10) ∧
      (-2147483648 ≤ s.score → s.score ≤ 2147483637 → s1.score = s.score + 10)) ∧
    (∀ k, ¬ Rejected (s.snake ++ [getNextHead back s.direction s.grid_size])
        s.poisonous_food (s.rng k) →
      ∀ fuel, k < fuel → ∃ s1, game_play_step fuel s = Outcome.moved s1) := by
  constructor
  · intro fuel s1 h
    rw [game_play_step_food fuel s back hrun hback h1 h2 h3] at h
    cases hsp : spawn_food fuel
        { s with snake := s.snake ++ [getNextHead back s.direction s.grid_size] } with
    | none => rw [hsp] at h; cases h
    | some s2 =>
      rw [hsp] at h
      cases h
      obtain ⟨-, -, -, hsc, -, hsn, -⟩ := spawn_food_frame _ _ _ hsp
      simp only [after_spawn, hsc, hsn, List.length_append, List.length_singleton, true_and]
      intro hlo hhi
      exact wrap_int_of_range _ (by omega) (by omega)
  · intro k hk fuel hfuel
    rw [game_play_step_food fuel s back hrun hback h1 h2 h3]
    obtain ⟨s2, hs2⟩ := spawn_food_terminates
      { s with snake := s.snake ++ [getNextHead back s.direction s.grid_size] } k hk fuel hfuel
    rw [hs2]
    exact ⟨_, rfl⟩

/-- Witness of C4 (amended): `hungryGame` eats the food at `(0, 4)`; the first
draw of its generator that is free is the fifth, `(1, 0)`. -/
theorem game_play_step_eat_witness :
    hungryGame.is_paused = false ∧ hungryGame.snake.getLast? = some (0, 3) ∧
    getNextHead (0, 3) hungryGame.direction hungryGame.grid_size ∉ hungryGame.snake ∧
    getNextHead (0, 3) hungryGame.direction hungryGame.grid_size ≠ hungryGame.poisonous_food ∧
    getNextHead (0, 3) hungryGame.direction hungryGame.grid_size = hungryGame.food ∧
    (∃ s1, game_play_step 6 hungryGame = Outcome.moved s1) :=
  ⟨rfl, rfl, by decide, by decide, by decide,
    (game_play_step_eat hungryGame (0, 3) rfl rfl (by decide) (by decide) (by decide)).2
      5 (by unfold Rejected; decide) 6 (by decide)⟩

/-! ## Reachable states and the tick interval -/

/-- An iteration of `game_play` that runs to its end was not paused, had a
head, and took the food branch or the normal move. -/
lemma game_play_step_moved (fuel : Nat) (s s1 : SnakeGame)
    (h : game_play_step fuel s = Outcome.moved s1) :
    s.is_paused = false ∧ ∃ back, s.snake.getLast? = some back ∧
      getNextHead back s.direction s.grid_size ∉ s.snake ∧
      getNextHead back s.direction s.grid_size ≠ s.poisonous_food ∧
      ((getNextHead back s.direction s.grid_size = s.food ∧
          ∃ s2, spawn_food fuel
            { s with snake := s.snake ++ [getNextHead back s.direction s.grid_size] } = some s2 ∧
            s1 = after_spawn s2) ∨
        (getNextHead back s.direction s.grid_size ≠ s.food ∧
          s1 = { s with
            snake := (s.snake ++ [getNextHead back s.direction s.grid_size]).tail })) := by
  rcases Bool.eq_false_or_eq_true s.is_paused with hp | hp
  · unfold game_play_step at h
    rw [if_pos hp] at h
    cases h
  · refine ⟨hp, ?_⟩
    cases hb : s.snake.getLast? with
    | none =>
      have hp1 : ¬ (s.is_paused = true) := by simp [hp]
      unfold game_play_step at h
      rw [if_neg hp1] at h
      simp only [hb] at h
      cases h
    | some back =>
      refine ⟨back, rfl, ?_⟩
      rcases game_play_step_cases fuel s back hp hb with
        ⟨h0, -⟩ | ⟨h0, -, -⟩ | ⟨h0 | ⟨s2, hs2, h0⟩, h1, h2, h3⟩ | ⟨h0, h1, h2, h3⟩
      · rw [h0] at h; cases h
      · rw [h0] at h; cases h
      · rw [h0] at h; cases h
      · rw [h0] at h
        cases h
        exact ⟨h1, h2, Or.inl ⟨h3, s2, hs2, rfl⟩⟩
      · rw [h0] at h
        cases h
        exact ⟨h1, h2, Or.inr ⟨h3, rfl⟩⟩

/-- A key changes at most the direction and the pause flag. -/
lemma input_handler_step_frame (s s1 : SnakeGame) (input : Char)
    (h : input_handler_step s input = some s1) :
    s1.grid_size = s.grid_size ∧ s1.score = s.score ∧ s1.food = s.food ∧
      s1.poisonous_food = s.poisonous_food ∧ s1.snake = s.snake ∧
      s1.sleep_duration = s.sleep_duration ∧ s1.rng = s.rng := by
  unfold input_handler_step at h
  split at h
  · cases h; exact ⟨rfl, rfl, rfl, rfl, rfl, rfl, rfl⟩
  · simp only at h
    split_ifs at h <;> cases h <;> exact ⟨rfl, rfl, rfl, rfl, rfl, rfl, rfl⟩

/-- The prologue of `game_play` changes at most the food, the poison and the generator. -/
lemma game_play_begin_frame (fuel : Nat) (s s1 : SnakeGame)
    (h : game_play_begin fuel s = some s1) :
    s1.grid_size = s.grid_size ∧ s1.direction = s.direction ∧ s1.is_paused = s.is_paused ∧
      s1.score = s.score ∧ s1.snake = s.snake ∧ s1.sleep_duration = s.sleep_duration := by
  unfold game_play_begin at h
  have hfood : ∀ sa, (if s.food.1 = -1 then spawn_food fuel s else some s) = some sa →
      sa.grid_size = s.grid_size ∧ sa.direction = s.direction ∧ sa.is_paused = s.is_paused ∧
      sa.score = s.score ∧ sa.snake = s.snake ∧ sa.sleep_duration = s.sleep_duration := by
    intro sa hsa
    split_ifs at hsa
    · obtain ⟨a, b, c, d, -, e, f⟩ := spawn_food_frame fuel s sa hsa
      exact ⟨a, b, c, d, e, f⟩
    · cases hsa; exact ⟨rfl, rfl, rfl, rfl, rfl, rfl⟩
  cases hsa : (if s.food.1 = -1 then spawn_food fuel s else some s) with
  | none => rw [hsa] at h; cases h
  | some sa =>
    rw [hsa] at h
    obtain ⟨a, b, c, d, e, f⟩ := hfood sa hsa
    simp only at h
    split_ifs at h
    · obtain ⟨a1, b1, c1, d1, -, e1, f1⟩ := spawn_poison_frame fuel sa s1 h
      exact ⟨a1.trans a, b1.trans b, c1.trans c, d1.trans d, e1.trans e, f1.trans f⟩
    · cases h; exact ⟨a, b, c, d, e, f⟩

/-- The constructor leaves the member initialisers in place, the food and the poison apart. -/
lemma new_frame (size : Int) (rng : Rng) (fuel : Nat) (s : SnakeGame)
    (h : SnakeGame.new size rng fuel = some s) :
    s.grid_size = size ∧ s.direction = 'r' ∧ s.is_paused = false ∧ s.score = 0 ∧
      s.snake = [(0, 0)] ∧ s.sleep_duration = 500 := by
  unfold SnakeGame.new at h
  simp only at h
  split at h
  · cases h
  · rename_i sa hsa
    obtain ⟨a, b, c, d, -, e, f⟩ := spawn_food_frame _ _ _ hsa
    obtain ⟨a1, b1, c1, d1, -, e1, f1⟩ := spawn_poison_frame _ _ _ h
    exact ⟨a1.trans a, b1.trans b, c1.trans c, d1.trans d, e1.trans e, f1.trans f⟩

/-- No direction is its own opposite. -/
lemma is_opposite_self (a : Char) : is_opposite a a = false := by
  unfold is_opposite
  have h1 : ¬ ((a = 'r' ∧ a = 'l') ∨ (a = 'l' ∧ a = 'r')) := by
    rintro (⟨h, h0⟩ | ⟨h, h0⟩) <;> rw [h] at h0 <;> exact absurd h0 (by decide)
  have h2 : ¬ ((a = 'u' ∧ a = 'd') ∨ (a = 'd' ∧ a = 'u')) := by
    rintro (⟨h, h0⟩ | ⟨h, h0⟩) <;> rw [h] at h0 <;> exact absurd h0 (by decide)
  rw [if_neg h1, if_neg h2]

/-- A handled key leaves the direction alone or sets it to a direction that
is not the opposite of the one it replaces. -/
lemma input_handler_step_not_opposite (s s1 : SnakeGame) (input : Char)
    (h : input_handler_step s input = some s1) :
    is_opposite s.direction s1.direction = false := by
  unfold input_handler_step at h
  split at h
  · cases h; exact is_opposite_self _
  · rename_i requested _
    simp only at h
    split_ifs at h with hp hq hopp
    · cases h; exact is_opposite_self _
    · cases h
      simpa using hopp
    · cases h; exact is_opposite_self _

/-- C9: with the current direction `cur` one of `r`, `l`, `u`, `d` and a key
`d`, `a`, `w`, `s` requesting `req` (`r`, `l`, `u`, `d` in that order), the
handler leaves the direction equal to `cur` when `req` is the opposite of `cur`
(the pairs `r`/`l` and `u`/`d`) and sets it to `req` otherwise. -/
theorem input_handler_step_direction (s : SnakeGame) (key req : Char)
    (hcur : s.direction ∈ ['r', 'l', 'u', 'd'])
    (hkey : (key, req) ∈ [('d', 'r'), ('a', 'l'), ('w', 'u'), ('s', 'd')]) :
    ∃ s1, input_handler_step s key = some s1 ∧
      (((s.direction = 'r' ∧ req = 'l') ∨ (s.direction = 'l' ∧ req = 'r') ∨
          (s.direction = 'u' ∧ req = 'd') ∨ (s.direction = 'd' ∧ req = 'u')) →
        s1.direction = s.direction) ∧
      (¬ ((s.direction = 'r' ∧ req = 'l') ∨ (s.direction = 'l' ∧ req = 'r') ∨
          (s.direction = 'u' ∧ req = 'd') ∨ (s.direction = 'd' ∧ req = 'u')) →
        s1.direction = req) := by
  simp only [List.mem_cons, List.mem_singleton, List.not_mem_nil, or_false, Prod.mk.injEq] at hcur hkey
  rcases hkey with ⟨rfl, rfl⟩ | ⟨rfl, rfl⟩ | ⟨rfl, rfl⟩ | ⟨rfl, rfl⟩ <;>
  rcases hcur with hc | hc | hc | hc <;>
  simp [input_handler_step, keymap, List.lookup, is_opposite, hc]

/-- Witness of C9: heading right (`plainGame`), the key `a` (left) is refused. -/
theorem input_handler_step_direction_witness :
    plainGame.direction ∈ ['r', 'l', 'u', 'd'] ∧
    (('a', 'l') : Char × Char) ∈ [('d', 'r'), ('a', 'l'), ('w', 'u'), ('s', 'd')] ∧
    (∃ s1, input_handler_step plainGame 'a' = some s1 ∧ s1.direction = 'r') :=
  ⟨by decide, by decide,
    (input_handler_step_direction plainGame 'a' 'l' (by decide) (by decide)).imp
      fun _ h => ⟨h.1, h.2.1 (Or.inl ⟨rfl, rfl⟩)⟩⟩

/-- C10, refuted: the iteration of `game_play` on `plainGame` reads the direction
`r` and moves the snake to `hungryGame`; before the next iteration the keys `w`
and `a` are handled, each accepted against the direction current at that
moment (`r` then `u`); the next iteration reads `l`, the opposite of `r`, and
the snake runs back into its own body. -/
theorem input_handler_run_counterexample :
    game_play_step 0 plainGame = Outcome.moved hungryGame ∧
    plainGame.direction = 'r' ∧
    input_handler_run hungryGame ['w', 'a'] = some turnedGame ∧
    turnedGame.direction = 'l' ∧
    is_opposite plainGame.direction turnedGame.direction = true ∧
    game_play_step 0 turnedGame =
      Outcome.gameOver GameOverReason.selfCollision turnedGame.score turnedGame ∧
    direction_read plainGame = some 'r' ∧
    run_events hungryGame [Event.key 'w', Event.key 'a'] = some turnedGame ∧
    ([Event.key 'w', Event.key 'a'].filter is_direction_key).length = 2 ∧
    direction_read turnedGame = some 'l' :=
  ⟨rfl, rfl, rfl, rfl, rfl, rfl, rfl, rfl, rfl, rfl⟩

/-! ## `update_high_scores` -/

/-- The output loop started at the index `i` puts out the entries from `i` on,
as many as its iteration bound and the limit `i < 10` allow. -/
lemma emit_loop_eq (high_scores : List Int) :
    ∀ (fuel i : Nat),
      emit_loop high_scores fuel i = (high_scores.drop i).take (min fuel (10 - i)) := by
  intro fuel
  induction fuel with
  | zero => intro i; simp [emit_loop]
  | succ fuel ih =>
    intro i
    unfold emit_loop
    split_ifs with h
    · have hmin : min (fuel + 1) (10 - i) = min fuel (10 - (i + 1)) + 1 := by omega
      rw [ih (i + 1), hmin, List.drop_eq_getElem_cons h.1, List.take_succ_cons]
      rfl
    · by_cases hlen : i < high_scores.length
      · have h10 : 10 - i = 0 := by omega
        simp [h10]
      · rw [List.drop_eq_nil_of_le (by omega)]
        simp

/-- The output loop of `update_high_scores` puts out the first ten entries. -/
lemma emit_loop_take (high_scores : List Int) :
    emit_loop high_scores 10 0 = high_scores.take 10 := by
  rw [emit_loop_eq]
  simp

lemma sort_descending_sorted (l : List Int) :
    (sort_descending l).Sorted (fun a b => a ≥ b) :=
  List.sorted_insertionSort _ l

lemma sort_descending_perm (l : List Int) : (sort_descending l).Perm l :=
  List.perm_insertionSort _ l

/-- There is one descending arrangement of a vector of integers: whatever
algorithm `std::sort` runs, its result is `sort_descending`. -/
lemma sort_descending_unique (l sorted : List Int) (hperm : sorted.Perm l)
    (hsorted : sorted.Sorted (fun a b => a ≥ b)) : sorted = sort_descending l :=
  List.eq_of_perm_of_sorted (hperm.trans (sort_descending_perm l).symm) hsorted
    (sort_descending_sorted l)

/-- Both output loops of `update_high_scores` put out the first ten entries of
the sorted vector. -/
lemma update_high_scores_eq (s : SnakeGame) (prior : List Int) :
    (update_high_scores s (some prior)).written =
        (sort_descending (prior ++ [s.score])).take 10 ∧
      (update_high_scores s (some prior)).displayed =
        (sort_descending (prior ++ [s.score])).take 10 := by
  simp only [update_high_scores, emit_loop_take, and_self]

/-- C11: for every sequence `prior` of stored scores and every current score,
`update_high_scores` displays the list it writes back, and that list is the
first ten entries of the descending arrangement of `prior ++ [score]`
(whichever way that arrangement is computed): it is in non-increasing order,
has `min (|prior| + 1) 10` entries, together with the entries dropped it is a
permutation of `prior ++ [score]`, and every entry dropped is at most every
entry kept.  A missing file behaves as an empty one. -/
theorem update_high_scores_top10 (s : SnakeGame) (prior : List Int) :
    (update_high_scores s (some prior)).displayed =
      (update_high_scores s (some prior)).written ∧
    (∀ sorted : List Int, sorted.Perm (prior ++ [s.score]) →
      sorted.Sorted (fun a b => a ≥ b) →
      (update_high_scores s (some prior)).written = sorted.take 10) ∧
    (update_high_scores s (some prior)).written.Sorted (fun a b => a ≥ b) ∧
    (update_high_scores s (some prior)).written.length = min (prior.length + 1) 10 ∧
    ((update_high_scores s (some prior)).written ++
      (sort_descending (prior ++ [s.score])).drop 10).Perm (prior ++ [s.score]) ∧
    (∀ x ∈ (sort_descending (prior ++ [s.score])).drop 10,
      ∀ y ∈ (update_high_scores s (some prior)).written, x ≤ y) ∧
    update_high_scores s none = update_high_scores s (some []) := by
  obtain ⟨hw, hd⟩ := update_high_scores_eq s prior
  have hsorted := sort_descending_sorted (prior ++ [s.score])
  have hperm := sort_descending_perm (prior ++ [s.score])
  refine ⟨hd.trans hw.symm, ?_, ?_, ?_, ?_, ?_, rfl⟩
  · intro sorted hp hs
    rw [hw, sort_descending_unique (prior ++ [s.score]) sorted hp hs]
  · rw [hw]
    exact hsorted.sublist (List.take_sublist _ _)
  · rw [hw, List.length_take, hperm.length_eq, List.length_append, List.length_singleton,
      min_comm]
  · rw [hw, List.take_append_drop]
    exact hperm
  · intro x hx y hy
    rw [hw] at hy
    exact hsorted.rel_of_mem_take_of_mem_drop hy hx

/-- Witness of C11: eleven stored scores in no particular order and the score
999 of `recordGame`; the two smallest of the twelve, 10 and 5, are dropped. -/
theorem update_high_scores_top10_witness :
    (update_high_scores recordGame
        (some [5, 100, 20, 30, 40, 50, 60, 70, 80, 90, 10])).written =
      [999, 100, 90, 80, 70, 60, 50, 40, 30, 20] ∧
    (update_high_scores recordGame
        (some [5, 100, 20, 30, 40, 50, 60, 70, 80, 90, 10])).displayed =
      (update_high_scores recordGame
        (some [5, 100, 20, 30, 40, 50, 60, 70, 80, 90, 10])).written ∧
    (update_high_scores recordGame
        (some [5, 100, 20, 30, 40, 50, 60, 70, 80, 90, 10])).written.length = min (11 + 1) 10 :=
  ⟨by decide,
    (update_high_scores_top10 recordGame [5, 100, 20, 30, 40, 50, 60, 70, 80, 90, 10]).1,
    (update_high_scores_top10 recordGame
      [5, 100, 20, 30, 40, 50, 60, 70, 80, 90, 10]).2.2.2.1⟩

/-- C12: when the current score is at least every stored score, the list
`update_high_scores` writes is not empty, starts with the current score and
has at most ten entries. -/
theorem update_high_scores_best (s : SnakeGame) (prior : List Int)
    (hbest : ∀ x ∈ prior, x ≤ s.score) :
    (update_high_scores s (some prior)).written ≠ [] ∧
    (update_high_scores s (some prior)).written.head? = some s.score ∧
    (update_high_scores s (some prior)).written.length ≤ 10 := by
  obtain ⟨hw, -⟩ := update_high_scores_eq s prior
  have hsorted := sort_descending_sorted (prior ++ [s.score])
  have hperm := sort_descending_perm (prior ++ [s.score])
  have hmem : s.score ∈ sort_descending (prior ++ [s.score]) :=
    hperm.symm.subset (by simp)
  rw [hw]
  cases hl : sort_descending (prior ++ [s.score]) with
  | nil => rw [hl] at hmem; cases hmem
  | cons a rest =>
    rw [hl] at hsorted hperm hmem
    have ha : a ≤ s.score := by
      have h0 : a ∈ prior ++ [s.score] := hperm.subset (List.mem_cons_self _ _)
      rcases List.mem_append.mp h0 with h1 | h1
      · exact hbest a h1
      · rw [List.mem_singleton.mp h1]
    have hs : s.score ≤ a := by
      rcases List.mem_cons.mp hmem with h1 | h1
      · rw [h1]
      · exact List.rel_of_sorted_cons hsorted _ h1
    have hae : a = s.score := le_antisymm ha hs
    refine ⟨by simp, by simp [hae], ?_⟩
    rw [List.length_take]
    exact min_le_left _ _

/-- Witness of C12: the file and the score of the test `WritesTop10WithCurrentScore`. -/
theorem update_high_scores_best_witness :
    (∀ x ∈ [(50 : Int), 40, 30, 20, 10], x ≤ recordGame.score) ∧
    (update_high_scores recordGame (some [50, 40, 30, 20, 10])).written =
      [999, 50, 40, 30, 20, 10] ∧
    (update_high_scores recordGame (some [50, 40, 30, 20, 10])).written.head? = some 999 :=
  ⟨by decide, by decide,
    (update_high_scores_best recordGame [50, 40, 30, 20, 10] (by decide)).2.1⟩

/-! ## `getNextHead` on the torus -/

/-- The successor modulo the grid size, on a coordinate of the grid. -/
lemma tmod_succ (c n : Int) (hc0 : 0 ≤ c) (hcn : c < n) :
    Int.tmod (c + 1) n = if c + 1 = n then 0 else c + 1 := by
  split_ifs with h
  · rw [h, Int.tmod_self]
  · exact Int.tmod_eq_of_lt (by omega) (by omega)

/-- The cell `getNextHead` returns from a cell of the grid is a cell of the grid. -/
lemma getNextHead_inGrid (n : Int) (p : Pos) (dir : Char) (hp : InGrid n p) :
    InGrid n (getNextHead p dir n) := by
  obtain ⟨r, c⟩ := p
  obtain ⟨hr0, hrn, hc0, hcn⟩ := hp
  simp only at hr0 hrn hc0 hcn
  unfold getNextHead InGrid
  simp only
  split_ifs <;> simp only [tmod_succ _ _ hr0 hrn, tmod_succ _ _ hc0 hcn] <;>
    (try split_ifs) <;> omega

/-- The pairs `is_opposite` relates. -/
lemma is_opposite_iff (a b : Char) :
    is_opposite a b = true ↔
      (a = 'r' ∧ b = 'l') ∨ (a = 'l' ∧ b = 'r') ∨ (a = 'u' ∧ b = 'd') ∨ (a = 'd' ∧ b = 'u') := by
  unfold is_opposite
  split_ifs with h1 h2
  · simp only [true_iff]
    rcases h1 with h | h
    · exact Or.inl h
    · exact Or.inr (Or.inl h)
  · simp only [true_iff]
    rcases h2 with h | h
    · exact Or.inr (Or.inr (Or.inl h))
    · exact Or.inr (Or.inr (Or.inr h))
  · simp only [Bool.false_eq_true, false_iff]
    rintro (h | h | h | h)
    · exact h1 (Or.inl h)
    · exact h1 (Or.inr h)
    · exact h2 (Or.inl h)
    · exact h2 (Or.inr h)

/-- C16: on a grid of size `n ≥ 1`, from a cell of the grid and for every
direction character, `getNextHead` returns a cell of the grid; a character
other than `r`, `l`, `d` is treated as `u`. -/
theorem getNextHead_closed (n : Int) (p : Pos) (dir : Char) (_hn : 1 ≤ n) (hp : InGrid n p) :
    (0 ≤ (getNextHead p dir n).1 ∧ (getNextHead p dir n).1 < n ∧
      0 ≤ (getNextHead p dir n).2 ∧ (getNextHead p dir n).2 < n) ∧
    (dir ≠ 'r' → dir ≠ 'l' → dir ≠ 'd' → getNextHead p dir n = getNextHead p 'u' n) := by
  refine ⟨getNextHead_inGrid n p dir hp, fun h1 h2 h3 => ?_⟩
  unfold getNextHead
  rw [if_neg h1, if_neg h2, if_neg h3]
  rfl

/-- Witness of C16: from the corner `(4, 4)` of the 5 × 5 grid with the
character `x`, which moves up. -/
theorem getNextHead_closed_witness :
    (1 : Int) ≤ 5 ∧ InGrid 5 (4, 4) ∧ getNextHead (4, 4) 'x' 5 = (3, 4) ∧
    InGrid 5 (getNextHead (4, 4) 'x' 5) :=
  have hp : InGrid 5 (4, 4) := by simp [InGrid]
  ⟨by decide, hp, by decide, (getNextHead_closed 5 (4, 4) 'x' (by decide) hp).1⟩

/-- C17: on a grid of size `n ≥ 1` and from a cell `p` of the grid, a move in
the direction `d` followed by a move in a direction `d'` that `is_opposite`
relates to `d` ends on `p`; `is_opposite` is symmetric, relates no character
to itself, and relates exactly the pairs `r`-`l` and `u`-`d`. -/
theorem getNextHead_opposite (n : Int) (p : Pos) (d d' : Char) (_hn : 1 ≤ n) (hp : InGrid n p)
    (hopp : is_opposite d d' = true) :
    getNextHead (getNextHead p d n) d' n = p ∧
    (∀ a b, is_opposite a b = is_opposite b a) ∧
    (∀ a, is_opposite a a = false) ∧
    (∀ a b, is_opposite a b = true ↔
      (a = 'r' ∧ b = 'l') ∨ (a = 'l' ∧ b = 'r') ∨ (a = 'u' ∧ b = 'd') ∨ (a = 'd' ∧ b = 'u')) := by
  refine ⟨?_, ?_, is_opposite_self, is_opposite_iff⟩
  · obtain ⟨r, c⟩ := p
    obtain ⟨hr0, hrn, hc0, hcn⟩ := hp
    simp only at hr0 hrn hc0 hcn
    rcases (is_opposite_iff d d').mp hopp with ⟨rfl, rfl⟩ | ⟨rfl, rfl⟩ | ⟨rfl, rfl⟩ | ⟨rfl, rfl⟩
    · have h := tmod_succ c n hc0 hcn
      simp only [getNextHead, h, Char.reduceEq, if_true, if_false, Prod.mk.injEq, true_and]
      split_ifs <;> omega
    · simp only [getNextHead, Char.reduceEq, if_true, if_false, Prod.mk.injEq, true_and]
      split_ifs with h0
      · rw [h0] at hcn
        have : n - 1 + 1 = n := by omega
        rw [this, Int.tmod_self, h0]
      · rw [tmod_succ (c - 1) n (by omega) (by omega)]
        split_ifs <;> omega
    · simp only [getNextHead, Char.reduceEq, if_true, if_false, Prod.mk.injEq, and_true]
      split_ifs with h0
      · rw [h0] at hrn
        have : n - 1 + 1 = n := by omega
        rw [this, Int.tmod_self, h0]
      · rw [tmod_succ (r - 1) n (by omega) (by omega)]
        split_ifs <;> omega
    · have h := tmod_succ r n hr0 hrn
      simp only [getNextHead, h, Char.reduceEq, if_true, if_false, Prod.mk.injEq, and_true]
      split_ifs <;> omega
  · intro a b
    rw [Bool.eq_iff_iff, is_opposite_iff, is_opposite_iff]
    constructor <;> rintro (⟨h1, h2⟩ | ⟨h1, h2⟩ | ⟨h1, h2⟩ | ⟨h1, h2⟩) <;> simp [h1, h2]

/-- Witness of C17: right across the edge of the 5 × 5 grid from `(0, 4)`, then left. -/
theorem getNextHead_opposite_witness :
    (1 : Int) ≤ 5 ∧ InGrid 5 (0, 4) ∧ is_opposite 'r' 'l' = true ∧
    getNextHead (0, 4) 'r' 5 = (0, 0) ∧
    getNextHead (getNextHead (0, 4) 'r' 5) 'l' 5 = (0, 4) :=
  have hp : InGrid 5 (0, 4) := by simp [InGrid]
  ⟨by decide, hp, rfl, by decide, (getNextHead_opposite 5 (0, 4) 'r' 'l' (by decide) hp rfl).1⟩

/-! ## Pause and keys -/

/-- C14: while the game is paused, an iteration of `game_play` takes the pause
branch and leaves the game as it is: the snake, the food, the poison, the
score, the tick interval and the direction keep their values, no random draw
is made and no game-over test is run. -/
theorem game_play_step_paused (fuel : Nat) (s : SnakeGame) (hp : s.is_paused = true) :
    game_play_step fuel s = Outcome.paused s ∧
    (∀ r sc st, game_play_step fuel s ≠ Outcome.gameOver r sc st) ∧
    (∀ s1, game_play_step fuel s ≠ Outcome.moved s1) := by
  have h : game_play_step fuel s = Outcome.paused s := by
    unfold game_play_step
    rw [if_pos hp]
  refine ⟨h, fun r sc st h0 => ?_, fun s1 h0 => ?_⟩
  · rw [h] at h0
    cases h0
  · rw [h] at h0
    cases h0

/-- Witness of C14: the paused `pausedGame`, whose next head cell `(0, 3)` is free. -/
theorem game_play_step_paused_witness :
    pausedGame.is_paused = true ∧ game_play_step 0 pausedGame = Outcome.paused pausedGame :=
  ⟨rfl, (game_play_step_paused 0 pausedGame rfl).1⟩

/-- A key outside the `keymap` is not found in it. -/
lemma keymap_lookup_none (key : Char) (hw : key ≠ 'w') (ha : key ≠ 'a') (hs : key ≠ 's')
    (hd : key ≠ 'd') (hp : key ≠ 'p') (hq : key ≠ 'q') : keymap.lookup key = none := by
  have hw1 : (key == 'w') = false := beq_false_of_ne hw
  have ha1 : (key == 'a') = false := beq_false_of_ne ha
  have hs1 : (key == 's') = false := beq_false_of_ne hs
  have hd1 : (key == 'd') = false := beq_false_of_ne hd
  have hp1 : (key == 'p') = false := beq_false_of_ne hp
  have hq1 : (key == 'q') = false := beq_false_of_ne hq
  simp only [keymap, List.lookup, hw1, ha1, hs1, hd1, hp1, hq1]

/-- C15: a key other than `w`, `a`, `s`, `d`, `p`, `q` leaves the whole game,
direction and pause flag included, as it is and does not end the session; the
keys `w`, `a`, `s`, `d` request `u`, `l`, `d`, `r` (stored unless opposite to
the current direction); `p` flips the pause flag and changes nothing else. -/
theorem input_handler_step_keys (s : SnakeGame) (key : Char) :
    (key ≠ 'w' → key ≠ 'a' → key ≠ 's' → key ≠ 'd' → key ≠ 'p' → key ≠ 'q' →
      input_handler_step s key = some s) ∧
    input_handler_step s 'w' =
      some (if is_opposite s.direction 'u' then s else { s with direction := 'u' }) ∧
    input_handler_step s 'a' =
      some (if is_opposite s.direction 'l' then s else { s with direction := 'l' }) ∧
    input_handler_step s 's' =
      some (if is_opposite s.direction 'd' then s else { s with direction := 'd' }) ∧
    input_handler_step s 'd' =
      some (if is_opposite s.direction 'r' then s else { s with direction := 'r' }) ∧
    input_handler_step s 'p' = some { s with is_paused := !s.is_paused } := by
  refine ⟨fun hw ha hs hd hp hq => ?_, ?_, ?_, ?_, ?_, ?_⟩
  · unfold input_handler_step
    rw [keymap_lookup_none key hw ha hs hd hp hq]
  · cases h : is_opposite s.direction 'u' <;>
      simp [input_handler_step, keymap, List.lookup, h]
  · cases h : is_opposite s.direction 'l' <;>
      simp [input_handler_step, keymap, List.lookup, h]
  · cases h : is_opposite s.direction 'd' <;>
      simp [input_handler_step, keymap, List.lookup, h]
  · cases h : is_opposite s.direction 'r' <;>
      simp [input_handler_step, keymap, List.lookup, h]
  · simp [input_handler_step, keymap, List.lookup]

/-- Witness of C15: the key `x` in `plainGame`. -/
theorem input_handler_step_keys_witness :
    input_handler_step plainGame 'x' = some plainGame :=
  (input_handler_step_keys plainGame 'x').1 (by decide) (by decide) (by decide) (by decide)
    (by decide) (by decide)

/-! ## Invariants of the reachable states -/

/-- The cell `spawn_food` stores is off the snake and is not the poison. -/
lemma spawn_food_accepts (fuel : Nat) (s s1 : SnakeGame) (h : spawn_food fuel s = some s1) :
    s1.food ∉ s.snake ∧ s1.food ≠ s.poisonous_food := by
  unfold spawn_food at h
  cases hl : spawn_loop s.snake s.poisonous_food fuel s.rng with
  | none => rw [hl] at h; cases h
  | some r =>
    obtain ⟨p, rng1⟩ := r
    rw [hl] at h
    cases h
    obtain ⟨k, -, hp, -, hacc, -⟩ := spawn_loop_eq_some _ _ _ _ _ _ hl
    subst hp
    exact ⟨fun hm => hacc (Or.inl hm), fun he => hacc (Or.inr he)⟩

/-- The cell `spawn_poison` stores is off the snake and is not the food. -/
lemma spawn_poison_accepts (fuel : Nat) (s s1 : SnakeGame) (h : spawn_poison fuel s = some s1) :
    s1.poisonous_food ∉ s.snake ∧ s1.poisonous_food ≠ s.food := by
  unfold spawn_poison at h
  cases hl : spawn_loop s.snake s.food fuel s.rng with
  | none => rw [hl] at h; cases h
  | some r =>
    obtain ⟨p, rng1⟩ := r
    rw [hl] at h
    cases h
    obtain ⟨k, -, hp, -, hacc, -⟩ := spawn_loop_eq_some _ _ _ _ _ _ hl
    subst hp
    exact ⟨fun hm => hacc (Or.inl hm), fun he => hacc (Or.inr he)⟩

/-- What an iteration of `game_play` that runs to its end does to the snake,
the score, the food and the poison. -/
lemma game_play_step_effect (fuel : Nat) (s s1 : SnakeGame)
    (h : game_play_step fuel s = Outcome.moved s1) :
    s1.grid_size = s.grid_size ∧ s1.poisonous_food = s.poisonous_food ∧
    ∃ back, s.snake.getLast? = some back ∧
      getNextHead back s.direction s.grid_size ∉ s.snake ∧
      getNextHead back s.direction s.grid_size ≠ s.poisonous_food ∧
      ((getNextHead back s.direction s.grid_size = s.food ∧
          s1.snake = s.snake ++ [getNextHead back s.direction s.grid_size] ∧
          s1.score = wrap_int (s.score + 10) ∧ s1.food ∉ s1.snake ∧
          s1.food ≠ s1.poisonous_food) ∨
        (getNextHead back s.direction s.grid_size ≠ s.food ∧
          s1.snake = (s.snake ++ [getNextHead back s.direction s.grid_size]).tail ∧
          s1.score = s.score ∧ s1.food = s.food)) := by
  obtain ⟨-, back, hback, h1, h2, ⟨h3, s2, hs2, rfl⟩ | ⟨h3, rfl⟩⟩ :=
    game_play_step_moved fuel s s1 h
  · obtain ⟨hg, -, -, hsc, hpo, hsn, -⟩ := spawn_food_frame _ _ _ hs2
    obtain ⟨hf1, hf2⟩ := spawn_food_accepts _ _ _ hs2
    refine ⟨hg, hpo, back, hback, h1, h2, Or.inl ⟨h3, hsn, ?_, ?_, ?_⟩⟩
    · simp only [after_spawn, hsc]
    · simp only [after_spawn, hsn]
      exact hf1
    · simp only [after_spawn, hpo]
      exact hf2
  · exact ⟨rfl, rfl, back, hback, h1, h2, Or.inr ⟨h3, rfl, rfl, rfl⟩⟩

/-- C13: in every reachable state (construction, prologue, iterations of
`game_play` that do not end the session, keys in between) the snake has at
least one cell, has no cell twice, and all its cells are on the grid. -/
theorem reachable_snake_wellformed (s : SnakeGame) (hs : Reachable s) :
    1 ≤ s.snake.length ∧ s.snake.Nodup ∧
    ∀ c ∈ s.snake, 0 ≤ c.1 ∧ c.1 < s.grid_size ∧ 0 ≤ c.2 ∧ c.2 < s.grid_size := by
  induction hs with
  | new size rng fuel s hrng hnew =>
    obtain ⟨hg, -, -, -, hsn, -⟩ := new_frame size rng fuel s hnew
    obtain ⟨h1, h2, h3, h4⟩ := hrng 0
    rw [hsn, hg]
    refine ⟨by simp, List.nodup_singleton _, ?_⟩
    intro c hc
    rw [List.mem_singleton.mp hc]
    simp only
    omega
  | prologue fuel s s1 _ hb ih =>
    obtain ⟨hg, -, -, -, hsn, -⟩ := game_play_begin_frame fuel s s1 hb
    rw [hsn, hg]; exact ih
  | key input s s1 _ hk ih =>
    obtain ⟨hg, -, -, -, hsn, -, -⟩ := input_handler_step_frame s s1 input hk
    rw [hsn, hg]; exact ih
  | tick fuel s s1 _ hstep ih =>
    obtain ⟨hlen, hnd, hin⟩ := ih
    obtain ⟨hg, -, back, hback, h1, -, hcase⟩ := game_play_step_effect fuel s s1 hstep
    have hhead : InGrid s.grid_size (getNextHead back s.direction s.grid_size) :=
      getNextHead_inGrid _ _ _ (hin back (List.mem_of_getLast?_eq_some hback))
    have hgrown : (s.snake ++ [getNextHead back s.direction s.grid_size]).Nodup := by
      rw [List.nodup_append]
      refine ⟨hnd, List.nodup_singleton _, ?_⟩
      intro a ha hb
      rw [List.mem_singleton.mp hb] at ha
      exact h1 ha
    have hmem : ∀ c ∈ s.snake ++ [getNextHead back s.direction s.grid_size],
        0 ≤ c.1 ∧ c.1 < s.grid_size ∧ 0 ≤ c.2 ∧ c.2 < s.grid_size := by
      intro c hc
      rcases List.mem_append.mp hc with hc | hc
      · exact hin c hc
      · rw [List.mem_singleton.mp hc]; exact hhead
    rw [hg]
    rcases hcase with ⟨-, hsn, -⟩ | ⟨-, hsn, -⟩
    · rw [hsn]
      exact ⟨by simp, hgrown, hmem⟩
    · rw [hsn]
      refine ⟨?_, hgrown.sublist (List.tail_sublist _), fun c hc =>
        hmem c (List.mem_of_mem_tail hc)⟩
      simp only [List.length_tail, List.length_append, List.length_singleton]
      omega

/-- Witness of C13: `cornerGame`, reached in play on the 2 × 2 grid with a snake of two cells. -/
theorem reachable_snake_wellformed_witness :
    Reachable cornerGame ∧ cornerGame.snake = [(0, 0), (0, 1)] ∧
    (1 ≤ cornerGame.snake.length ∧ cornerGame.snake.Nodup) :=
  ⟨cornerGame_reachable, rfl,
    (reachable_snake_wellformed cornerGame cornerGame_reachable).1,
    (reachable_snake_wellformed cornerGame cornerGame_reachable).2.1⟩

/-- C18: in every reachable state the food is off the snake, the poison is off
the snake, and the food and the poison are different cells: after the
construction, after the prologue, and after every iteration of `game_play`
that runs to its end, be it a normal move or an eat. -/
theorem reachable_items_apart (s : SnakeGame) (hs : Reachable s) :
    s.food ∉ s.snake ∧ s.poisonous_food ∉ s.snake ∧ s.food ≠ s.poisonous_food := by
  induction hs with
  | new size rng fuel s _ hnew =>
    unfold SnakeGame.new at hnew
    simp only at hnew
    split at hnew
    · cases hnew
    · rename_i sa hsa
      obtain ⟨hf1, -⟩ := spawn_food_accepts _ _ _ hsa
      obtain ⟨-, -, -, -, -, hsn, -⟩ := spawn_food_frame _ _ _ hsa
      obtain ⟨hp1, hp2⟩ := spawn_poison_accepts _ _ _ hnew
      obtain ⟨-, -, -, -, hfo, hsn1, -⟩ := spawn_poison_frame _ _ _ hnew
      rw [hsn1, hfo]
      rw [← hsn] at hf1
      exact ⟨hf1, hp1, fun h => hp2 h.symm⟩
  | prologue fuel s s1 _ hb ih =>
    obtain ⟨ih1, ih2, ih3⟩ := ih
    unfold game_play_begin at hb
    cases hsa : (if s.food.1 = -1 then spawn_food fuel s else some s) with
    | none => rw [hsa] at hb; cases hb
    | some sa =>
      rw [hsa] at hb
      simp only at hb
      have hmid : sa.food ∉ sa.snake ∧ sa.poisonous_food ∉ sa.snake ∧
          sa.food ≠ sa.poisonous_food := by
        split_ifs at hsa
        · obtain ⟨hf1, hf2⟩ := spawn_food_accepts _ _ _ hsa
          obtain ⟨-, -, -, -, hpo, hsn, -⟩ := spawn_food_frame _ _ _ hsa
          rw [hsn, hpo]
          exact ⟨hf1, ih2, hf2⟩
        · cases hsa
          exact ⟨ih1, ih2, ih3⟩
      split_ifs at hb
      · obtain ⟨hp1, hp2⟩ := spawn_poison_accepts _ _ _ hb
        obtain ⟨-, -, -, -, hfo, hsn, -⟩ := spawn_poison_frame _ _ _ hb
        rw [hsn, hfo]
        exact ⟨hmid.1, hp1, fun h => hp2 h.symm⟩
      · cases hb
        exact hmid
  | key input s s1 _ hk ih =>
    obtain ⟨-, -, hfo, hpo, hsn, -, -⟩ := input_handler_step_frame s s1 input hk
    rw [hsn, hfo, hpo]; exact ih
  | tick fuel s s1 _ hstep ih =>
    obtain ⟨ih1, ih2, ih3⟩ := ih
    obtain ⟨-, hpo, back, -, -, h2, hcase⟩ := game_play_step_effect fuel s s1 hstep
    rcases hcase with ⟨-, hsn, -, hf1, hf2⟩ | ⟨h3, hsn, -, hfo⟩
    · refine ⟨hf1, ?_, hf2⟩
      rw [hsn, hpo]
      intro hmem
      rcases List.mem_append.mp hmem with hm | hm
      · exact ih2 hm
      · exact h2 (List.mem_singleton.mp hm).symm
    · rw [hsn, hfo, hpo]
      refine ⟨fun hmem => ?_, fun hmem => ?_, ih3⟩
      · rcases List.mem_append.mp (List.mem_of_mem_tail hmem) with hm | hm
        · exact ih1 hm
        · exact h3 (List.mem_singleton.mp hm).symm
      · rcases List.mem_append.mp (List.mem_of_mem_tail hmem) with hm | hm
        · exact ih2 hm
        · exact h2 (List.mem_singleton.mp hm).symm

/-- Witness of C18: `cornerFed`, the game on the 2 × 2 grid right after its first food. -/
theorem reachable_items_apart_witness :
    Reachable cornerFed ∧ cornerFed.food = (1, 1) ∧ cornerFed.poisonous_food = (1, 0) ∧
    cornerFed.food ∉ cornerFed.snake :=
  have h : Reachable cornerFed :=
    Reachable.tick 1 cornerStart cornerFed
      (Reachable.new 2 cornerRng 1 cornerStart cornerRng_inGrid rfl) rfl
  ⟨h, rfl, rfl, (reachable_items_apart cornerFed h).1⟩

/-- The generator `rowRng N` draws cells of the `N × N` grid. -/
lemma rowRng_inGrid (N : Nat) (hN : 2 ≤ N) : RngInGrid (N : Int) (rowRng N) := by
  intro i
  have hmod : i % N < N := Nat.mod_lt _ (by omega)
  unfold rowRng
  split_ifs <;> simp only <;> omega

/-- The constructor `SnakeGame(N)` with the generator `rowRng N` builds `rowGame N 0`. -/
lemma rowGame_new (N : Nat) : SnakeGame.new (N : Int) (rowRng N) 1 = some (rowGame N 0) :=
  rfl

/-- An iteration of `game_play` in `rowGame N m` eats the food ahead and
leaves `rowGame N (m + 1)`, as long as the row has two more cells. -/
lemma rowGame_step (N m : Nat) (h : m + 2 < N) :
    game_play_step 1 (rowGame N m) = Outcome.moved (rowGame N (m + 1)) := by
  have hback : (rowGame N m).snake.getLast? = some (0, (m : Int)) := by
    simp [rowGame, List.range_succ]
  have hhead : getNextHead (0, (m : Int)) (rowGame N m).direction (rowGame N m).grid_size =
      (0, (m : Int) + 1) := by
    have ht : Int.tmod ((m : Int) + 1) (N : Int) = (m : Int) + 1 :=
      Int.tmod_eq_of_lt (by omega) (by omega)
    simp [getNextHead, rowGame, ht]
  have h1 : ((0 : Int), (m : Int) + 1) ∉ (rowGame N m).snake := by
    intro hmem
    obtain ⟨j, hj, hjeq⟩ := List.mem_map.mp hmem
    have hlt := List.mem_range.mp hj
    have hcol := (Prod.mk.inj hjeq).2
    omega
  have h2 : ((0 : Int), (m : Int) + 1) ≠ (rowGame N m).poisonous_food := by
    simp [rowGame]
  rw [game_play_step_food 1 (rowGame N m) (0, (m : Int)) rfl hback (hhead ▸ h1) (hhead ▸ h2)
    (hhead.trans rfl), hhead]
  have hmod : (0 + (m + 2)) % N = m + 2 := by
    rw [Nat.zero_add]
    exact Nat.mod_eq_of_lt h
  have hdraw : (rowGame N m).rng 0 = (0, (m : Int) + 2) := by
    have e0 : ¬ (0 + (m + 2) = 0) := by omega
    have e1 : ¬ (0 + (m + 2) = 1) := by omega
    simp only [rowGame, rowRng, if_neg e0, if_neg e1, hmod]
    push_cast
    rfl
  have hacc : ¬ Rejected ((rowGame N m).snake ++ [(0, (m : Int) + 1)])
      (rowGame N m).poisonous_food ((rowGame N m).rng 0) := by
    rw [hdraw]
    rintro (hm | he)
    · rcases List.mem_append.mp hm with hm | hm
      · obtain ⟨j, hj, hjeq⟩ := List.mem_map.mp hm
        have hlt := List.mem_range.mp hj
        have hcol := (Prod.mk.inj hjeq).2
        omega
      · have hcol := (Prod.mk.inj (List.mem_singleton.mp hm)).2
        omega
    · exact absurd (Prod.mk.inj he).1 (by decide)
  unfold spawn_food
  simp only
  rw [spawn_loop_succ_accepted _ _ 0 _ hacc, hdraw]
  simp only [after_spawn, rowGame, Outcome.moved.injEq, SnakeGame.mk.injEq, true_and]
  refine ⟨?_, ?_, ?_, ?_, ?_⟩
  · rw [wrap_int_add]
    push_cast
    ring_nf
  · push_cast
    ring_nf
  · rw [List.range_succ (m + 1), List.map_append]
    simp
  · unfold min_sleep
    push_cast
    split_ifs <;> omega
  · funext i
    simp only [Rng.next]
    congr 1
    omega

/-- Every `rowGame N m` whose food is on the grid is reached in play. -/
lemma rowGame_reachable (N : Nat) : ∀ m, m + 1 < N → Reachable (rowGame N m) := by
  intro m
  induction m with
  | zero =>
    intro h
    exact Reachable.new (N : Int) (rowRng N) 1 (rowGame N 0) (rowRng_inGrid N (by omega))
      (rowGame_new N)
  | succ m ih =>
    intro h
    exact Reachable.tick 1 (rowGame N m) (rowGame N (m + 1)) (ih (by omega))
      (rowGame_step N m (by omega))

lemma rowGame_length (N m : Nat) : (rowGame N m).snake.length = m + 1 := by
  simp only [rowGame, List.length_map, List.length_range]

/-- C19, refuted: on the grid of size 214748368 with every food served right
ahead, the game after 214748364 eats is reachable and has the score
2147483640; its next iteration eats once more and leaves a reachable game
with a snake of 214748366 cells and the score `-2147483646`: the score has
decreased, is negative and is not `10 * (length - 1) = 2147483650`. -/
theorem reachable_score_counterexample :
    Reachable (rowGame 214748368 214748364) ∧
    (rowGame 214748368 214748364).score = 2147483640 ∧
    game_play_step 1 (rowGame 214748368 214748364) =
      Outcome.moved (rowGame 214748368 214748365) ∧
    Reachable (rowGame 214748368 214748365) ∧
    (rowGame 214748368 214748365).snake.length = 214748366 ∧
    (rowGame 214748368 214748365).score = -2147483646 ∧
    (rowGame 214748368 214748365).score ≠
      10 * (((rowGame 214748368 214748365).snake.length : Int) - 1) ∧
    (rowGame 214748368 214748365).score < (rowGame 214748368 214748364).score := by
  have hs0 : (rowGame 214748368 214748364).score = 2147483640 := by
    simp only [rowGame, wrap_int]
    norm_num
  have hs1 : (rowGame 214748368 214748365).score = -2147483646 := by
    simp only [rowGame, wrap_int]
    norm_num
  have hlen := rowGame_length 214748368 214748365
  refine ⟨rowGame_reachable 214748368 214748364 (by norm_num), hs0,
    rowGame_step 214748368 214748364 (by norm_num),
    rowGame_reachable 214748368 214748365 (by norm_num), hlen, hs1, ?_, ?_⟩
  · rw [hs1, hlen]
    norm_num
  · rw [hs1, hs0]
    norm_num

/-- C19, amended: in every reachable state the score is the 32-bit `int` value
of `10 * (length of the snake - 1)`; as long as that product is at most
`2147483647` the score equals it, so it is a non-negative multiple of 10, and
an iteration of `game_play` that leaves the product in that range does not
decrease the score; keys and the prologue never change the score. -/
theorem reachable_score (s : SnakeGame) (hs : Reachable s) :
    s.score = wrap_int (10 * ((s.snake.length : Int) - 1)) ∧
    (10 * ((s.snake.length : Int) - 1) ≤ 2147483647 →
      s.score = 10 * ((s.snake.length : Int) - 1) ∧ 0 ≤ s.score ∧ (10 : Int) ∣ s.score) ∧
    (∀ fuel s1, game_play_step fuel s = Outcome.moved s1 →
      10 * ((s1.snake.length : Int) - 1) ≤ 2147483647 → s.score ≤ s1.score) ∧
    (∀ input s1, input_handler_step s input = some s1 → s1.score = s.score) ∧
    (∀ fuel s1, game_play_begin fuel s = some s1 → s1.score = s.score) := by
  have inv : ∀ t, Reachable t →
      t.score = wrap_int (10 * ((t.snake.length : Int) - 1)) ∧ 1 ≤ t.snake.length := by
    intro t ht
    induction ht with
    | new size rng fuel s _ hnew =>
      obtain ⟨-, -, -, hsc, hsn, -⟩ := new_frame size rng fuel s hnew
      rw [hsc, hsn]
      exact ⟨by decide, by decide⟩
    | prologue fuel s s1 _ hb ih =>
      obtain ⟨-, -, -, hsc, hsn, -⟩ := game_play_begin_frame fuel s s1 hb
      rw [hsc, hsn]; exact ih
    | key input s s1 _ hk ih =>
      obtain ⟨-, hsc, -, -, hsn, -, -⟩ := input_handler_step_frame s s1 input hk
      rw [hsc, hsn]; exact ih
    | tick fuel s s1 _ hstep ih =>
      obtain ⟨hsc0, hlen⟩ := ih
      obtain ⟨-, -, back, -, -, -, hcase⟩ := game_play_step_effect fuel s s1 hstep
      rcases hcase with ⟨-, hsn, hsc, -⟩ | ⟨-, hsn, hsc, -⟩
      · rw [hsn, hsc, hsc0, wrap_int_add]
        simp only [List.length_append, List.length_singleton]
        constructor
        · push_cast
          ring_nf
        · omega
      · rw [hsn, hsc, hsc0]
        simp only [List.length_tail, List.length_append, List.length_singleton,
          Nat.add_sub_cancel]
        exact ⟨trivial, hlen⟩
  have small : ∀ t, Reachable t → 10 * ((t.snake.length : Int) - 1) ≤ 2147483647 →
      t.score = 10 * ((t.snake.length : Int) - 1) := by
    intro t ht hle
    obtain ⟨hsc, hlen⟩ := inv t ht
    rw [hsc]
    exact wrap_int_of_range _ (by omega) hle
  obtain ⟨hsc0, hlen⟩ := inv s hs
  refine ⟨hsc0, fun hle => ?_, ?_, ?_, ?_⟩
  · have h := small s hs hle
    exact ⟨h, by omega, ⟨(s.snake.length : Int) - 1, h⟩⟩
  · intro fuel s1 hstep hle
    have h1 := small s1 (Reachable.tick fuel s s1 hs hstep) hle
    obtain ⟨-, -, back, -, -, -, hcase⟩ := game_play_step_effect fuel s s1 hstep
    have hmono : s.snake.length ≤ s1.snake.length := by
      rcases hcase with ⟨-, hsn, -⟩ | ⟨-, hsn, -⟩
      · rw [hsn]; simp
      · rw [hsn]; simp
    have h0 := small s hs (by omega)
    omega
  · exact fun input s1 h => (input_handler_step_frame s s1 input h).2.1
  · exact fun fuel s1 h => (game_play_begin_frame fuel s s1 h).2.2.2.1

/-- Witness of C19: `cornerGame`, two cells long with the score 10. -/
theorem reachable_score_witness :
    Reachable cornerGame ∧ cornerGame.snake.length = 2 ∧ cornerGame.score = 10 ∧
    cornerGame.score = 10 * ((cornerGame.snake.length : Int) - 1) :=
  ⟨cornerGame_reachable, rfl, rfl,
    ((reachable_score cornerGame cornerGame_reachable).2.1 (by decide)).1⟩

/-! ## The direction from one iteration to a later one -/

/-- An iteration of `game_play` that runs to its end leaves the direction and
the pause flag alone. -/
lemma game_play_step_direction (fuel : Nat) (s s1 : SnakeGame)
    (h : game_play_step fuel s = Outcome.moved s1) :
    s1.direction = s.direction ∧ s1.is_paused = s.is_paused := by
  obtain ⟨-, back, -, -, -, ⟨-, s2, hs2, rfl⟩ | ⟨-, rfl⟩⟩ := game_play_step_moved fuel s s1 h
  · obtain ⟨-, hd, hp, -⟩ := spawn_food_frame _ _ _ hs2
    exact ⟨hd, hp⟩
  · exact ⟨rfl, rfl⟩

/-- An iteration of `game_play` that takes the pause branch leaves the game as it is. -/
lemma game_play_step_paused_eq (fuel : Nat) (s s1 : SnakeGame)
    (h : game_play_step fuel s = Outcome.paused s1) : s1 = s := by
  rcases Bool.eq_false_or_eq_true s.is_paused with hp | hp
  · unfold game_play_step at h
    rw [if_pos hp] at h
    cases h
    rfl
  · cases hb : s.snake.getLast? with
    | none =>
      have hp1 : ¬ (s.is_paused = true) := by simp [hp]
      unfold game_play_step at h
      rw [if_neg hp1] at h
      simp only [hb] at h
      cases h
    | some back =>
      rcases game_play_step_cases fuel s back hp hb with
        ⟨h0, -⟩ | ⟨h0, -, -⟩ | ⟨h0 | ⟨s2, -, h0⟩, -, -, -⟩ | ⟨h0, -, -, -⟩ <;>
      · rw [h0] at h
        cases h

/-- An iteration of `game_play` that runs to its end puts the new head one
step from the old head in the direction it has loaded. -/
lemma game_play_step_head (fuel : Nat) (s s1 : SnakeGame)
    (h : game_play_step fuel s = Outcome.moved s1) :
    ∃ back, s.snake.getLast? = some back ∧
      s1.snake.getLast? = some (getNextHead back s.direction s.grid_size) := by
  obtain ⟨-, -, back, hback, -, -, hcase⟩ := game_play_step_effect fuel s s1 h
  refine ⟨back, hback, ?_⟩
  rcases hcase with ⟨-, hsn, -⟩ | ⟨-, hsn, -⟩
  · rw [hsn]
    simp
  · have hne : s.snake ≠ [] := by
      intro h0
      rw [h0] at hback
      cases hback
    obtain ⟨x, xs, hxs⟩ := List.exists_cons_of_ne_nil hne
    rw [hsn, hxs]
    simp

/-- A key other than `w`, `a`, `s`, `d` that does not end the process leaves
the direction alone. -/
lemma input_handler_step_other_key (s s1 : SnakeGame) (input : Char)
    (h : input_handler_step s input = some s1)
    (hkey : is_direction_key (Event.key input) = false) : s1.direction = s.direction := by
  simp only [is_direction_key, Bool.or_eq_false_iff, beq_eq_false_iff_ne, ne_eq] at hkey
  obtain ⟨⟨⟨hw, ha⟩, hs⟩, hd⟩ := hkey
  by_cases hp : input = 'p'
  · subst hp
    have h0 : input_handler_step s 'p' = some { s with is_paused := !s.is_paused } := by
      simp [input_handler_step, keymap, List.lookup]
    rw [h0] at h
    cases h
    rfl
  · by_cases hq : input = 'q'
    · subst hq
      have h0 : input_handler_step s 'q' = none := by
        simp [input_handler_step, keymap, List.lookup]
      rw [h0] at h
      cases h
    · unfold input_handler_step at h
      rw [keymap_lookup_none input hw ha hs hd hp hq] at h
      cases h
      rfl

/-- Events without a direction key leave the direction alone. -/
lemma run_events_no_request :
    ∀ (events : List Event) (s s1 : SnakeGame), run_events s events = some s1 →
      events.filter is_direction_key = [] → s1.direction = s.direction := by
  intro events
  induction events with
  | nil =>
    intro s s1 h _
    simp only [run_events] at h
    cases h
    rfl
  | cons e rest ih =>
    intro s s1 h hnone
    cases e with
    | tick fuel =>
      have hrest : rest.filter is_direction_key = [] := by
        simpa [List.filter, is_direction_key] using hnone
      simp only [run_events] at h
      split at h
      · rename_i sa hsa
        rw [ih sa s1 h hrest]
        exact (game_play_step_direction fuel s sa hsa).1
      · rename_i sa hsa
        rw [ih sa s1 h hrest, game_play_step_paused_eq fuel s sa hsa]
      · cases h
    | key input =>
      have hkey : is_direction_key (Event.key input) = false := by
        cases hk : is_direction_key (Event.key input) with
        | false => rfl
        | true => simp [List.filter, hk] at hnone
      have hrest : rest.filter is_direction_key = [] := by
        simpa [List.filter, hkey] using hnone
      simp only [run_events] at h
      split at h
      · cases h
      · rename_i sa hsa
        rw [ih sa s1 h hrest]
        exact input_handler_step_other_key s sa input hsa hkey

/-- Events with at most one direction key do not turn the direction into its opposite. -/
lemma run_events_one_request :
    ∀ (events : List Event) (s s1 : SnakeGame), run_events s events = some s1 →
      (events.filter is_direction_key).length ≤ 1 →
      is_opposite s.direction s1.direction = false := by
  intro events
  induction events with
  | nil =>
    intro s s1 h _
    simp only [run_events] at h
    cases h
    exact is_opposite_self _
  | cons e rest ih =>
    intro s s1 h hone
    cases e with
    | tick fuel =>
      have hrest : (rest.filter is_direction_key).length ≤ 1 := by
        simpa [List.filter, is_direction_key] using hone
      simp only [run_events] at h
      split at h
      · rename_i sa hsa
        rw [← (game_play_step_direction fuel s sa hsa).1]
        exact ih sa s1 h hrest
      · rename_i sa hsa
        rw [← game_play_step_paused_eq fuel s sa hsa]
        exact ih sa s1 h hrest
      · cases h
    | key input =>
      simp only [run_events] at h
      split at h
      · cases h
      · rename_i sa hsa
        cases hk : is_direction_key (Event.key input) with
        | false =>
          have hrest : (rest.filter is_direction_key).length ≤ 1 := by
            simpa [List.filter, hk] using hone
          rw [← input_handler_step_other_key s sa input hsa hk]
          exact ih sa s1 h hrest
        | true =>
          have hrest : rest.filter is_direction_key = [] := by
            have hlen : (rest.filter is_direction_key).length = 0 := by
              simp only [List.filter, hk, List.length_cons] at hone
              omega
            exact List.length_eq_zero.mp hlen
          rw [run_events_no_request rest sa s1 h hrest]
          exact input_handler_step_not_opposite s sa input hsa

/-- C10, amended: when at most one of the keys `w`, `a`, `s`, `d` is handled
between an iteration of `game_play` and a later one, whatever other keys,
pause toggles and iterations lie in between, the direction read by the later
iteration is not the opposite of the direction read by the earlier one.  The
direction an iteration reads is the one its new head is a step away in. -/
theorem direction_read_not_reversed (fuel0 : Nat) (s0 sa s1 : SnakeGame)
    (events : List Event) (d0 d1 : Char)
    (hread0 : direction_read s0 = some d0)
    (htick0 : game_play_step fuel0 s0 = Outcome.moved sa)
    (hrun : run_events sa events = some s1)
    (hone : (events.filter is_direction_key).length ≤ 1)
    (hread1 : direction_read s1 = some d1) :
    is_opposite d0 d1 = false ∧
    (∃ back, s0.snake.getLast? = some back ∧
      sa.snake.getLast? = some (getNextHead back d0 s0.grid_size)) ∧
    (∀ fuel1 s2, game_play_step fuel1 s1 = Outcome.moved s2 →
      ∃ back, s1.snake.getLast? = some back ∧
        s2.snake.getLast? = some (getNextHead back d1 s1.grid_size)) := by
  have hd0 : d0 = s0.direction := by
    unfold direction_read at hread0
    split_ifs at hread0
    cases hread0
    rfl
  have hd1 : d1 = s1.direction := by
    unfold direction_read at hread1
    split_ifs at hread1
    cases hread1
    rfl
  subst hd0 hd1
  refine ⟨?_, game_play_step_head fuel0 s0 sa htick0,
    fun fuel1 s2 h => game_play_step_head fuel1 s1 s2 h⟩
  rw [← (game_play_step_direction fuel0 s0 sa htick0).1]
  exact run_events_one_request events sa s1 hrun hone

/-- Witness of C10 (amended): `plainGame` moves right; then the game is paused,
an iteration takes the pause branch, the key `w` is handled and the game is
resumed; the next iteration reads `u`. -/
theorem direction_read_not_reversed_witness :
    direction_read plainGame = some 'r' ∧
    game_play_step 0 plainGame = Outcome.moved hungryGame ∧
    run_events hungryGame [Event.key 'p', Event.tick 0, Event.key 'w', Event.key 'p'] =
      some upGame ∧
    ([Event.key 'p', Event.tick 0, Event.key 'w', Event.key 'p'].filter
      is_direction_key).length ≤ 1 ∧
    direction_read upGame = some 'u' ∧
    is_opposite 'r' 'u' = false :=
  ⟨rfl, rfl, rfl, by decide, rfl,
    (direction_read_not_reversed 0 plainGame hungryGame upGame
      [Event.key 'p', Event.tick 0, Event.key 'w', Event.key 'p'] 'r' 'u' rfl rfl rfl
      (by decide) rfl).1⟩

end SnakeCli
